import Mathlib

/-!
Verification of the zvote ballot tallying engine.

The Rust sources are shallowly embedded: `u32` values become `Nat` with
explicit saturation at `U32MAX` or wrap-around modulo `U32MOD` exactly where
the source performs `saturating_add` or plain (wrapping) arithmetic, and the
SpacetimeDB tables become lists inside explicit state records threaded
through the reducer functions.
-/

namespace ZVote

/-- Modulus of the `u32` machine type. -/
def U32MOD : Nat := 4294967296

/-- Largest `u32` value. -/
def U32MAX : Nat := 4294967295

/-- `u32::saturating_add`. -/
def satAdd (a b : Nat) : Nat := min (a + b) U32MAX

/-- Wrapping `u32` addition (release-mode `+` on `u32`). -/
def wrapAdd (a b : Nat) : Nat := (a + b) % U32MOD

/-! ## Embedding of `proto1/server/src/judgment.rs` (pure tallying core) -/

namespace Proto1

/-- The grade scale of the proto1 server, worst to best. -/
inductive Mention where
  | ToReject
  | Passable
  | Good
  | VeryGood
  | Excellent
deriving DecidableEq

/-- Index of a grade in the worst-to-best order (the `match` in
`compute_second_from_counts`). -/
def mentionIdx : Mention → Nat
  | .ToReject => 0
  | .Passable => 1
  | .Good => 2
  | .VeryGood => 3
  | .Excellent => 4

/-- The `order` array of `compute_majority_from_counts`. -/
def order : List Mention :=
  [Mention.ToReject, Mention.Passable, Mention.Good, Mention.VeryGood, Mention.Excellent]

/-- The scanning loop of `compute_majority_from_counts`: walk the grades
paired with their counts, accumulating `cum` with `saturating_add`, and
return the first grade whose cumulative count reaches `target`; the
fallback when the loop exhausts is `Excellent`. -/
def majLoop : List (Mention × Nat) → Nat → Nat → Mention
  | [], _, _ => Mention.Excellent
  | (m, c) :: rest, target, cum =>
    let cum2 := satAdd cum c
    if target ≤ cum2 then m else majLoop rest target cum2

/-- `compute_majority_from_counts` from `proto1/server/src/judgment.rs`.
The median target `(total + 1) / 2` is `u32` arithmetic: `total + 1` wraps
modulo `2^32` (release semantics), so at `total = 2^32 - 1` the target is
`0` and the scan stops at the first bucket. -/
def compute_majority_from_counts (counts : List Nat) (total : Nat) : Mention :=
  if total = 0 then Mention.ToReject
  else majLoop (order.zip counts) (((total + 1) % U32MOD) / 2) 0

/-- `compute_second_from_counts` from `proto1/server/src/judgment.rs`. -/
def compute_second_from_counts (counts : List Nat) (total : Nat) (majority : Mention) :
    Option Mention :=
  if total ≤ 1 then none
  else
    let idx := mentionIdx majority
    if counts.getD idx 0 = 0 then none
    else some (compute_majority_from_counts
      (counts.set idx (counts.getD idx 0 - 1)) (total - 1))

/-- Cumulative count of the grades with index `≤ k` (1-indexed position
`k + 1` in worst-to-best order). -/
def cumTo (counts : List Nat) (k : Nat) : Nat := (counts.take (k + 1)).sum

/-- Wrapping `u32` iterator sum (`c.iter().sum()` in release mode). -/
def u32sum (l : List Nat) : Nat := l.foldl wrapAdd 0

/-- `max` of the derived `Ord` on `Mention` (declaration order). -/
def mmax (a b : Mention) : Mention := if mentionIdx a ≤ mentionIdx b then b else a

/-- The per-option majority grades computed by `compute_majorities_and_seconds`:
each option's counts are paired with their `u32` sum and fed to
`compute_majority_from_counts`. -/
def majoritiesOf (counts_list : List (List Nat)) : List Mention :=
  counts_list.map (fun c => compute_majority_from_counts c (u32sum c))

/-- `majorities.iter().max().unwrap_or(ToReject)`. -/
def bestMajorityOf (counts_list : List (List Nat)) : Mention :=
  (majoritiesOf counts_list).foldl mmax Mention.ToReject

/-- `majorities.iter().filter(m == best).count()`. -/
def winnersCountOf (counts_list : List (List Nat)) : Nat :=
  ((majoritiesOf counts_list).filter (fun x => x == bestMajorityOf counts_list)).length

/-- `compute_majorities_and_seconds` from `proto1/server/src/judgment.rs`:
majority for every option, runner-up only when the computed majority ties
the best majority and more than one option attains it. -/
def compute_majorities_and_seconds (counts_list : List (List Nat)) :
    List (Mention × Option Mention) :=
  let totals := counts_list.map u32sum
  let majorities := majoritiesOf counts_list
  let best := bestMajorityOf counts_list
  let winners_count := winnersCountOf counts_list
  let have_tie_among_winners := decide (1 < winners_count)
  let seconds := List.zipWith
    (fun (p : List Nat × Nat) m =>
      if have_tie_among_winners && (m == best) then
        compute_second_from_counts p.1 p.2 m
      else none)
    (counts_list.zip totals) majorities
  majorities.zip seconds

end Proto1

end ZVote

namespace ZVote.Proto1

/-- Characterisation of the median scan: on a 5-bucket distribution whose
buckets sum to `total` with `0 < total < 2^32 - 1` (so that the `u32`
computation of `total + 1` does not wrap), the returned grade is the
smallest-index grade whose cumulative count reaches `(total + 1) / 2`. -/
theorem maj_spec (c0 c1 c2 c3 c4 total : Nat)
    (hsum : c0 + c1 + c2 + c3 + c4 = total)
    (hpos : 0 < total) (hlt : total < U32MAX) :
    (total + 1) / 2 ≤
        cumTo [c0, c1, c2, c3, c4]
          (mentionIdx (compute_majority_from_counts [c0, c1, c2, c3, c4] total)) ∧
      ∀ j < mentionIdx (compute_majority_from_counts [c0, c1, c2, c3, c4] total),
        cumTo [c0, c1, c2, c3, c4] j < (total + 1) / 2 := by
  have htot : total ≠ 0 := Nat.pos_iff_ne_zero.mp hpos
  simp only [compute_majority_from_counts, if_neg htot, order, List.zip, majLoop,
    List.zipWith]
  simp only [satAdd, U32MAX] at *
  simp only [U32MOD] at *
  split_ifs with h1 h2 h3 h4 h5 <;>
    simp only [mentionIdx, cumTo, List.take, List.sum_cons, List.sum_nil] <;>
    refine ⟨by omega, ?_⟩ <;> intro j hj
  · omega
  · interval_cases j <;> simp only [List.take, List.sum_cons, List.sum_nil] <;> omega
  · interval_cases j <;> simp only [List.take, List.sum_cons, List.sum_nil] <;> omega
  · interval_cases j <;> simp only [List.take, List.sum_cons, List.sum_nil] <;> omega
  · interval_cases j <;> simp only [List.take, List.sum_cons, List.sum_nil] <;> omega
  · interval_cases j <;> simp only [List.take, List.sum_cons, List.sum_nil] <;> omega

/-- On a distribution whose buckets sum to a positive `total < 2^32 - 1`,
the bucket of the computed majority grade is non-empty. -/
theorem maj_bucket_pos (c0 c1 c2 c3 c4 total : Nat)
    (hsum : c0 + c1 + c2 + c3 + c4 = total)
    (hpos : 0 < total) (hlt : total < U32MAX) :
    [c0, c1, c2, c3, c4].getD
        (mentionIdx (compute_majority_from_counts [c0, c1, c2, c3, c4] total)) 0 ≠ 0 := by
  have htot : total ≠ 0 := Nat.pos_iff_ne_zero.mp hpos
  simp only [compute_majority_from_counts, if_neg htot, order, List.zip, majLoop,
    List.zipWith]
  simp only [satAdd, U32MAX] at *
  simp only [U32MOD] at *
  split_ifs with h1 h2 h3 h4 h5 <;> simp only [mentionIdx, List.getD] <;> simp <;> omega

/-- `u32sum` is the plain sum reduced modulo `2^32`. -/
theorem u32sum_eq (l : List Nat) : u32sum l = l.sum % U32MOD := by
  have key : ∀ (l : List Nat) (a : Nat), l.foldl wrapAdd (a % U32MOD) = (a + l.sum) % U32MOD := by
    intro l
    induction l with
    | nil => intro a; simp
    | cons x xs ih =>
      intro a
      simp only [List.foldl_cons, List.sum_cons, wrapAdd, Nat.mod_add_mod]
      rw [ih (a + x)]
      ring_nf
  have h0 : (0 : Nat) = 0 % U32MOD := by decide
  unfold u32sum
  rw [h0, key]
  simp

/-- `compute_second_from_counts` returns `none` exactly when the total is at
most one or the majority bucket is empty. -/
theorem second_eq_none_iff (counts : List Nat) (total : Nat) (m : Mention) :
    compute_second_from_counts counts total m = none ↔
      total ≤ 1 ∨ counts.getD (mentionIdx m) 0 = 0 := by
  unfold compute_second_from_counts
  split_ifs with h1 h2 <;> simp_all

/-- Counterexample to claim C1 as stated: at `total = 2^32 - 1` (reachable
with `2^32 - 1` ballots, all `Excellent`) the `u32` computation of
`total + 1` wraps to `0`, the median target becomes `0`, and the program
returns the worst grade `ToReject` even though the 1-indexed lower-median
position `(total + 1) / 2 = 2^31` falls in the `Excellent` bucket. -/
theorem claim_C1_cex :
    compute_majority_from_counts [0, 0, 0, 0, U32MAX] U32MAX = Mention.ToReject ∧
      ¬((U32MAX + 1) / 2 ≤
          cumTo [0, 0, 0, 0, U32MAX]
            (mentionIdx
              (compute_majority_from_counts [0, 0, 0, 0, U32MAX] U32MAX))) := by
  constructor
  · rfl
  · decide

/-- Claim C1 (amended): for a 5-bucket grade distribution whose buckets sum
to `total < 2^32 - 1`, if `total` is positive the majority grade computed by
`compute_majority_from_counts` is the smallest grade in worst-to-best order
whose cumulative count reaches the 1-indexed position `(total + 1) / 2`
(lower median on even totals), and if `total = 0` the majority grade is the
worst grade `ToReject` rather than an error. At `total = 2^32 - 1` the `u32`
median target wraps to `0` and the program instead returns the worst
grade. -/
theorem claim_C1 (c0 c1 c2 c3 c4 total : Nat)
    (hsum : c0 + c1 + c2 + c3 + c4 = total) (hlt : total < U32MAX) :
    (0 < total →
      (total + 1) / 2 ≤
          cumTo [c0, c1, c2, c3, c4]
            (mentionIdx (compute_majority_from_counts [c0, c1, c2, c3, c4] total)) ∧
        ∀ j < mentionIdx (compute_majority_from_counts [c0, c1, c2, c3, c4] total),
          cumTo [c0, c1, c2, c3, c4] j < (total + 1) / 2)
    ∧ (total = 0 →
        compute_majority_from_counts [c0, c1, c2, c3, c4] total = Mention.ToReject) := by
  constructor
  · intro hpos
    exact maj_spec c0 c1 c2 c3 c4 total hsum hpos hlt
  · intro h0
    simp [compute_majority_from_counts, h0]

/-- Witness for claim C1: the spec's even-total example, counts
`{Good: 2, VeryGood: 1, Excellent: 1}` and total `4`. -/
theorem claim_C1_witness :
    (4 + 1) / 2 ≤
        cumTo [0, 0, 2, 1, 1]
          (mentionIdx (compute_majority_from_counts [0, 0, 2, 1, 1] 4)) ∧
      ∀ j < mentionIdx (compute_majority_from_counts [0, 0, 2, 1, 1] 4),
        cumTo [0, 0, 2, 1, 1] j < (4 + 1) / 2 :=
  (claim_C1 0 0 2 1 1 4 (by decide) (by decide)).1 (by decide)

/-- Claim C2: with the majority grade of the distribution as input,
`compute_second_from_counts` removes exactly one ballot from the majority
bucket and reruns the median computation on `total - 1` whenever `total ≥ 2`
and that bucket is non-empty, and returns `none` whenever `total ≤ 1` or the
majority bucket is empty. -/
theorem claim_C2 (counts : List Nat) (total : Nat) :
    (2 ≤ total →
        counts.getD (mentionIdx (compute_majority_from_counts counts total)) 0 ≠ 0 →
        compute_second_from_counts counts total
            (compute_majority_from_counts counts total) =
          some (compute_majority_from_counts
            (counts.set (mentionIdx (compute_majority_from_counts counts total))
              (counts.getD (mentionIdx (compute_majority_from_counts counts total)) 0 - 1))
            (total - 1)))
    ∧ ((total ≤ 1 ∨
          counts.getD (mentionIdx (compute_majority_from_counts counts total)) 0 = 0) →
        compute_second_from_counts counts total
            (compute_majority_from_counts counts total) = none) := by
  constructor
  · intro h2 hne
    unfold compute_second_from_counts
    rw [if_neg (by omega), if_neg hne]
  · intro h
    exact (second_eq_none_iff counts total
      (compute_majority_from_counts counts total)).mpr h

/-- Witness for claim C2: the spec's example, counts
`{Good: 1, VeryGood: 1, Excellent: 1}` and total `3`. -/
theorem claim_C2_witness :
    compute_second_from_counts [0, 0, 1, 1, 1] 3
        (compute_majority_from_counts [0, 0, 1, 1, 1] 3) =
      some (compute_majority_from_counts
        (([0, 0, 1, 1, 1] : List Nat).set
          (mentionIdx (compute_majority_from_counts [0, 0, 1, 1, 1] 3))
          (([0, 0, 1, 1, 1] : List Nat).getD
            (mentionIdx (compute_majority_from_counts [0, 0, 1, 1, 1] 3)) 0 - 1))
        (3 - 1)) :=
  (claim_C2 [0, 0, 1, 1, 1] 3).1 (by decide) (by decide)

/-- A list of length 5 is a 5-element literal. -/
theorem exists_five (c : List Nat) (h : c.length = 5) :
    ∃ a b d e f, c = [a, b, d, e, f] := by
  match c, h with
  | [a, b, d, e, f], _ => exact ⟨a, b, d, e, f, rfl⟩

/-- Counterexample to claim C3 as stated: with two options each holding a
single `ToReject` ballot, two options share the vote-wide maximal majority
grade, yet no option stores a runner-up grade (the reduced total `0` makes
`compute_second_from_counts` return `none`). -/
theorem claim_C3_cex :
    1 < winnersCountOf [[1, 0, 0, 0, 0], [1, 0, 0, 0, 0]] ∧
      ((compute_majorities_and_seconds [[1, 0, 0, 0, 0], [1, 0, 0, 0, 0]]).getD 0
          (Mention.ToReject, none)).2 = none := by
  decide

/-- Claim C3 (amended): for a vote in which every option's ballot total is
below `2^32 - 1` (so no option's `u32` median target wraps), an option's
entry in `compute_majorities_and_seconds` carries a runner-up grade iff at
least two options attain the vote-wide maximal majority grade, this option's
majority equals that maximum, and this option's ballot total is at least 2.
In particular, when the top majority grade is attained by a single option no
option stores a runner-up. At total `2^32 - 1` the wrapped median target can
land on an empty bucket and suppress the runner-up despite a tie. -/
theorem claim_C3 (cl : List (List Nat)) (h5 : ∀ c ∈ cl, c.length = 5)
    (hs : ∀ c ∈ cl, c.sum < U32MAX) (i : Nat) (hi : i < cl.length) :
    ((compute_majorities_and_seconds cl).getD i (Mention.ToReject, none)).2.isSome = true ↔
      (1 < winnersCountOf cl ∧
        (majoritiesOf cl).getD i Mention.ToReject = bestMajorityOf cl ∧
        2 ≤ (cl.getD i []).sum) := by
  have hlenm : (majoritiesOf cl).length = cl.length := List.length_map _ _
  have hlent : (cl.map u32sum).length = cl.length := List.length_map _ _
  have hi2 : i < (majoritiesOf cl).length := by omega
  have hzl : (cl.zip (cl.map u32sum)).length = cl.length := by
    rw [List.length_zip]; omega
  have hlens : (List.zipWith
      (fun (p : List Nat × Nat) m =>
        if decide (1 < winnersCountOf cl) && (m == bestMajorityOf cl) then
          compute_second_from_counts p.1 p.2 m
        else none)
      (cl.zip (cl.map u32sum)) (majoritiesOf cl)).length = cl.length := by
    rw [List.length_zipWith]; omega
  have hgm : (majoritiesOf cl).getD i Mention.ToReject =
      compute_majority_from_counts cl[i] (u32sum cl[i]) := by
    rw [List.getD_eq_getElem _ _ hi2]
    simp [majoritiesOf]
  have hgc : cl.getD i [] = cl[i] := List.getD_eq_getElem _ _ hi
  have hsum_i : u32sum cl[i] = cl[i].sum := by
    rw [u32sum_eq]
    exact Nat.mod_eq_of_lt (Nat.lt_trans (hs _ (cl.getElem_mem hi)) (by decide))
  have hmain : (compute_majorities_and_seconds cl).getD i (Mention.ToReject, none) =
      ((majoritiesOf cl).getD i Mention.ToReject,
        if decide (1 < winnersCountOf cl) &&
            ((majoritiesOf cl).getD i Mention.ToReject == bestMajorityOf cl) then
          compute_second_from_counts cl[i] (u32sum cl[i])
            ((majoritiesOf cl).getD i Mention.ToReject)
        else none) := by
    show (List.zip _ _).getD i _ = _
    rw [List.getD_eq_getElem _ _ (by rw [List.length_zip]; omega)]
    rw [List.getElem_zip, List.getElem_zipWith, List.getElem_zip]
    rw [List.getD_eq_getElem _ _ hi2]
    simp [List.getElem_map]
  rw [hmain, hgm, hgc, hsum_i]
  set m := compute_majority_from_counts cl[i] cl[i].sum with hm
  by_cases htie : 1 < winnersCountOf cl
  · by_cases hbest : m = bestMajorityOf cl
    · have hcond : (decide (1 < winnersCountOf cl) && (m == bestMajorityOf cl)) = true := by
        simp [htie, hbest]
      rw [if_pos hcond]
      constructor
      · intro hsome
        refine ⟨htie, hbest, ?_⟩
        by_contra hle
        rw [(second_eq_none_iff _ _ _).mpr (Or.inl (by omega))] at hsome
        simp at hsome
      · rintro ⟨-, -, h2⟩
        obtain ⟨a, b, d, e, f, hc⟩ := exists_five cl[i] (h5 _ (cl.getElem_mem hi))
        have hbucket : cl[i].getD (mentionIdx m) 0 ≠ 0 := by
          rw [hm, hc]
          have hsum5 : a + b + d + e + f = ([a, b, d, e, f] : List Nat).sum := by
            simp only [List.sum_cons, List.sum_nil]; omega
          have hlt5 : ([a, b, d, e, f] : List Nat).sum < U32MAX := by
            have hx := hs _ (cl.getElem_mem hi); rwa [hc] at hx
          have h2' : 2 ≤ ([a, b, d, e, f] : List Nat).sum := by rwa [hc] at h2
          exact maj_bucket_pos a b d e f _ hsum5 (by omega) hlt5
        rcases ho : compute_second_from_counts cl[i] cl[i].sum m with _ | v
        · exfalso
          rcases (second_eq_none_iff _ _ _).mp ho with h | h
          · omega
          · exact hbucket h
        · simp
    · have hcond : (decide (1 < winnersCountOf cl) && (m == bestMajorityOf cl)) = false := by
        simp [hbest]
      constructor
      · intro hsome
        rw [if_neg (by simp [hcond])] at hsome
        simp at hsome
      · rintro ⟨-, hb, -⟩
        exact absurd hb hbest
  · have hcond : (decide (1 < winnersCountOf cl) && (m == bestMajorityOf cl)) = false := by
      simp [htie]
    constructor
    · intro hsome
      rw [if_neg (by simp [hcond])] at hsome
      simp at hsome
    · rintro ⟨ht, -, -⟩
      exact absurd ht htie

/-- Witness for claim C3: the three-option configuration of the source's
`test_second_only_for_tie_of_winners`, instantiated at option 0. -/
theorem claim_C3_witness :
    ((compute_majorities_and_seconds
          [[0, 0, 1, 1, 1], [0, 0, 0, 2, 1], [0, 0, 2, 1, 0]]).getD 0
        (Mention.ToReject, none)).2.isSome = true ↔
      (1 < winnersCountOf [[0, 0, 1, 1, 1], [0, 0, 0, 2, 1], [0, 0, 2, 1, 0]] ∧
        (majoritiesOf [[0, 0, 1, 1, 1], [0, 0, 0, 2, 1], [0, 0, 2, 1, 0]]).getD 0
            Mention.ToReject =
          bestMajorityOf [[0, 0, 1, 1, 1], [0, 0, 0, 2, 1], [0, 0, 2, 1, 0]] ∧
        2 ≤ (([[0, 0, 1, 1, 1], [0, 0, 0, 2, 1], [0, 0, 2, 1, 0]] :
            List (List Nat)).getD 0 []).sum) :=
  claim_C3 [[0, 0, 1, 1, 1], [0, 0, 0, 2, 1], [0, 0, 2, 1, 0]]
    (by decide) (by decide) 0 (by decide)

end ZVote.Proto1

/-! ## Embedding of `servers/spacetimedb/src/judgment.rs` (stateful reducers)

The SpacetimeDB tables become lists inside a `State` record; identities and
ids are `Nat`; auto-increment primary keys are modelled by a `next_id`
counter. -/

namespace ZVote.Stdb

/-- The grade scale of the spacetimedb server, worst to best. -/
inductive Mention where
  | Bad
  | Inadequate
  | Passable
  | Fair
  | Good
  | VeryGood
  | Excellent
deriving DecidableEq

/-- The configured voting method of a vote. -/
inductive VotingSystem where
  | Approval
  | MajorityJudgment
deriving DecidableEq

/-- A `vote` row, restricted to the fields the judgment engine reads. -/
structure Vote where
  id : Nat
  voting_system : VotingSystem
deriving DecidableEq

/-- A `vote_option` row, restricted to the fields the judgment engine reads. -/
structure VoteOption where
  id : Nat
  vote_id : Nat
deriving DecidableEq

/-- A single judgment entry for batch submission. -/
structure JudgmentEntry where
  option_id : Nat
  mention : Mention
deriving DecidableEq

/-- A `judgment` (ballot) row. -/
structure Judgment where
  id : Nat
  option_id : Nat
  voter : Nat
  mention : Mention
deriving DecidableEq

/-- An `mj_summary` row. -/
structure MjSummary where
  option_id : Nat
  vote_id : Nat
  total : Nat
  bad : Nat
  inadequate : Nat
  passable : Nat
  fair : Nat
  good : Nat
  very_good : Nat
  excellent : Nat
deriving DecidableEq

/-- The database state visible to the judgment reducers. -/
structure State where
  votes : List Vote
  options : List VoteOption
  judgments : List Judgment
  summaries : List MjSummary
  next_id : Nat
deriving DecidableEq

/-- `find_vote_by_id` (primary-key lookup). -/
def find_vote_by_id (s : State) (vote_id : Nat) : Option Vote :=
  s.votes.find? (fun v => v.id == vote_id)

/-- `find_vote_option_by_id` (primary-key lookup). -/
def find_vote_option_by_id (s : State) (option_id : Nat) : Option VoteOption :=
  s.options.find? (fun o => o.id == option_id)

/-- `get_vote_options` (the `by_vote` index). -/
def get_vote_options (s : State) (vote_id : Nat) : List VoteOption :=
  s.options.filter (fun o => o.vote_id == vote_id)

/-- The judgment rows of one option (the `by_option` index). -/
def rows_for (s : State) (option_id : Nat) : List Judgment :=
  s.judgments.filter (fun j => j.option_id == option_id)

/-- Grade-count accumulator mirroring the `[u32; 7]` counts array. -/
structure Counts7 where
  bad : Nat
  inadequate : Nat
  passable : Nat
  fair : Nat
  good : Nat
  very_good : Nat
  excellent : Nat
deriving DecidableEq

/-- The all-zero counts array. -/
def zeroCounts : Counts7 := ⟨0, 0, 0, 0, 0, 0, 0⟩

/-- One step of the counting loop: `counts[i] += 1` is plain (wrapping)
`u32` addition on the bucket selected by the row's mention. -/
def bump (c : Counts7) : Mention → Counts7
  | .Bad => { c with bad := (c.bad + 1) % U32MOD }
  | .Inadequate => { c with inadequate := (c.inadequate + 1) % U32MOD }
  | .Passable => { c with passable := (c.passable + 1) % U32MOD }
  | .Fair => { c with fair := (c.fair + 1) % U32MOD }
  | .Good => { c with good := (c.good + 1) % U32MOD }
  | .VeryGood => { c with very_good := (c.very_good + 1) % U32MOD }
  | .Excellent => { c with excellent := (c.excellent + 1) % U32MOD }

/-- The per-option counting loop of `recompute_mj_summary_for_vote`. -/
def countsOf (rows : List Judgment) : Counts7 :=
  rows.foldl (fun c j => bump c j.mention) zeroCounts

/-- The per-option total accumulation, `total = total.saturating_add(1)`
per row. -/
def totalOf (rows : List Judgment) : Nat :=
  rows.foldl (fun t _ => satAdd t 1) 0

/-- Assemble the summary row written for one option. -/
def mkSummary (vote_id option_id total : Nat) (c : Counts7) : MjSummary :=
  ⟨option_id, vote_id, total, c.bad, c.inadequate, c.passable, c.fair, c.good,
    c.very_good, c.excellent⟩

/-- Upsert of a summary row keyed by `option_id`: find by primary key, then
update in place, else insert. -/
def upsert (summaries : List MjSummary) (sm : MjSummary) : List MjSummary :=
  if (summaries.find? (fun x => x.option_id == sm.option_id)).isSome then
    summaries.map (fun x => if x.option_id == sm.option_id then sm else x)
  else summaries ++ [sm]

/-- `recompute_mj_summary_for_vote`: recollect each option's counts and
total from the judgment table and upsert one summary row per option, the
stored total being looked up through
`totals_vec[counts_vec.iter().position(|c| c == counts).unwrap_or(0)]`. -/
def recompute_mj_summary_for_vote (s : State) (vote_id : Nat) : State :=
  let options := get_vote_options s vote_id
  let counts_vec := options.map (fun o => countsOf (rows_for s o.id))
  let totals_vec := options.map (fun o => totalOf (rows_for s o.id))
  { s with
    summaries := (options.zip counts_vec).foldl
      (fun acc p =>
        let total := totals_vec.getD ((counts_vec.findIdx? (fun c => c == p.2)).getD 0) 0
        upsert acc (mkSummary vote_id p.1.id total p.2))
      s.summaries }

/-- `ctx.db.judgment().insert(...)` with the auto-increment primary key. -/
def insertJ (s : State) (option_id voter : Nat) (mention : Mention) : State :=
  { s with
    judgments := s.judgments ++ [⟨s.next_id, option_id, voter, mention⟩],
    next_id := s.next_id + 1 }

/-- `ctx.db.judgment().id().update(...)`: replace the row with the same
primary key. -/
def updateJ (s : State) (row : Judgment) : State :=
  { s with judgments := s.judgments.map (fun j => if j.id == row.id then row else j) }

/-- `cast_judgment` from `servers/spacetimedb/src/judgment.rs` (the proto1
variant is structurally identical up to its 5-grade scale and `ToReject`
sentinel). The caller identity `ctx.sender` is the `sender` argument; an
error return models the rolled-back transaction with the entry state. -/
def cast_judgment (s : State) (sender option_id : Nat) (mention : Mention) :
    Except String Unit × State :=
  match find_vote_option_by_id s option_id with
  | none => (Except.error "Vote option not found", s)
  | some option =>
    match find_vote_by_id s option.vote_id with
    | none => (Except.error "Parent vote not found", s)
    | some vote =>
      if vote.voting_system ≠ VotingSystem.MajorityJudgment then
        (Except.error "This vote does not use majority judgment", s)
      else
        let existing_judgments_for_vote := (get_vote_options s vote.id).flatMap
          (fun opt => (s.judgments.filter (fun j => j.option_id == opt.id)).filter
            (fun j => j.voter == sender))
        let s1 :=
          if existing_judgments_for_vote.isEmpty then
            recompute_mj_summary_for_vote
              ((get_vote_options s vote.id).foldl
                (fun st opt => insertJ st opt.id sender Mention.Bad) s)
              vote.id
          else s
        let s2 :=
          match ((s1.judgments.filter (fun j => j.option_id == option_id)).filter
              (fun j => j.voter == sender)).head? with
          | some existing_judgment =>
            if existing_judgment.mention ≠ mention then
              updateJ s1 { existing_judgment with mention := mention }
            else s1
          | none => insertJ s1 option_id sender mention
        (Except.ok (), recompute_mj_summary_for_vote s2 option.vote_id)

/-- The duplicate-detection loop of `submit_complete_judgment_ballot`: a set
of already-seen option ids, failing at the first repeat. -/
def checkDup (seen : List Nat) : List JudgmentEntry → Option String
  | [] => none
  | e :: rest =>
    if e.option_id ∈ seen then some "Duplicate judgment for option"
    else checkDup (e.option_id :: seen) rest

/-- `submit_complete_judgment_ballot` from
`servers/spacetimedb/src/judgment.rs`: validate vote, method, entry count,
option membership and duplicates, then delete the voter's rows, insert the
new ballot and recompute once. -/
def submit_complete_judgment_ballot (s : State) (sender vote_id : Nat)
    (judgments : List JudgmentEntry) : Except String Unit × State :=
  match find_vote_by_id s vote_id with
  | none => (Except.error "Vote not found", s)
  | some vote =>
    if vote.voting_system ≠ VotingSystem.MajorityJudgment then
      (Except.error "This vote does not use majority judgment", s)
    else
      let options := get_vote_options s vote_id
      if judgments.length ≠ options.length then
        (Except.error "Incomplete ballot", s)
      else if judgments.all (fun e => options.any (fun o => o.id == e.option_id)) = false
      then (Except.error "Option does not belong to vote", s)
      else
        match checkDup [] judgments with
        | some msg => (Except.error msg, s)
        | none =>
          let s1 := options.foldl
            (fun st opt =>
              let rows := st.judgments.filter
                (fun j => j.option_id == opt.id && j.voter == sender)
              rows.foldl (fun st2 r => { st2 with judgments := st2.judgments.erase r }) st)
            s
          let s2 := judgments.foldl
            (fun st e => insertJ st e.option_id sender e.mention) s1
          (Except.ok (), recompute_mj_summary_for_vote s2 vote_id)

end ZVote.Stdb

namespace ZVote.Stdb

/-- The duplicate-detection loop succeeds exactly when the entries' option
ids are pairwise distinct and none is already in the seen set. -/
theorem checkDup_none_iff (entries : List JudgmentEntry) (seen : List Nat) :
    checkDup seen entries = none ↔
      ((entries.map (fun e => e.option_id)).Nodup ∧
        ∀ e ∈ entries, e.option_id ∉ seen) := by
  induction entries generalizing seen with
  | nil => simp [checkDup]
  | cons e rest ih =>
    by_cases hmem : e.option_id ∈ seen
    · simp only [checkDup, if_pos hmem]
      constructor
      · intro h; cases h
      · rintro ⟨-, hall⟩
        exact absurd hmem (hall e (List.mem_cons_self e rest))
    · simp only [checkDup, if_neg hmem, ih, List.map_cons, List.nodup_cons,
        List.mem_cons, List.mem_map]
      constructor
      · rintro ⟨hnd, hall⟩
        refine ⟨⟨?_, hnd⟩, ?_⟩
        · rintro ⟨e2, he2, heq⟩
          have := hall e2 he2
          simp [List.mem_cons] at this
          exact this.1 heq
        · rintro x (rfl | hx)
          · exact hmem
          · have := hall x hx
            simp [List.mem_cons] at this
            exact this.2
      · rintro ⟨⟨hne, hnd⟩, hall⟩
        refine ⟨hnd, ?_⟩
        intro e2 he2 hcon
        rcases hcon with heq | hx
        · exact hne ⟨e2, he2, heq⟩
        · exact hall e2 (Or.inr he2) hx

/-- Claim C4: any validation failure of `submit_complete_judgment_ballot`
(missing vote, non-Majority-Judgment method, wrong entry count, entry naming
a foreign option, or duplicated option id) returns an error and leaves the
entire state — in particular every existing ballot row of every voter —
unchanged: no partial mutation. -/
theorem claim_C4 (s : State) (sender vote_id : Nat) (entries : List JudgmentEntry)
    (h : find_vote_by_id s vote_id = none ∨
      (∃ v, find_vote_by_id s vote_id = some v ∧
        v.voting_system ≠ VotingSystem.MajorityJudgment) ∨
      entries.length ≠ (get_vote_options s vote_id).length ∨
      (∃ e ∈ entries, e.option_id ∉ (get_vote_options s vote_id).map (fun o => o.id)) ∨
      ¬ (entries.map (fun e => e.option_id)).Nodup) :
    (∃ msg, (submit_complete_judgment_ballot s sender vote_id entries).1 =
        Except.error msg) ∧
      (submit_complete_judgment_ballot s sender vote_id entries).2 = s := by
  rcases hv : find_vote_by_id s vote_id with _ | v
  · refine ⟨⟨"Vote not found", ?_⟩, ?_⟩ <;>
      simp [submit_complete_judgment_ballot, hv]
  · by_cases hsys : v.voting_system = VotingSystem.MajorityJudgment
    · by_cases hlen : entries.length = (get_vote_options s vote_id).length
      · by_cases hall : entries.all
            (fun e => (get_vote_options s vote_id).any
              (fun o => o.id == e.option_id)) = true
        · rcases hdup : checkDup [] entries with _ | msg
          · exfalso
            rcases h with h | ⟨v2, hv2, hs2⟩ | h | ⟨e, he, hm⟩ | h
            · rw [hv] at h; cases h
            · rw [hv] at hv2
              injection hv2 with hv2
              exact hs2 (hv2 ▸ hsys)
            · exact h hlen
            · rw [List.all_eq_true] at hall
              have := hall e he
              rw [List.any_eq_true] at this
              obtain ⟨o, ho, hoe⟩ := this
              rw [beq_iff_eq] at hoe
              exact hm (List.mem_map.mpr ⟨o, ho, hoe⟩)
            · exact h ((checkDup_none_iff entries []).mp hdup).1
          · refine ⟨⟨msg, ?_⟩, ?_⟩ <;>
              simp [submit_complete_judgment_ballot, hv, hsys, hlen, hall, hdup]
        · rw [Bool.not_eq_true] at hall
          refine ⟨⟨"Option does not belong to vote", ?_⟩, ?_⟩ <;>
            simp [submit_complete_judgment_ballot, hv, hsys, hlen, hall]
      · refine ⟨⟨"Incomplete ballot", ?_⟩, ?_⟩ <;>
          simp [submit_complete_judgment_ballot, hv, hsys, hlen]
    · refine ⟨⟨"This vote does not use majority judgment", ?_⟩, ?_⟩ <;>
        simp [submit_complete_judgment_ballot, hv, hsys]

/-- Exact number of rows carrying a given mention. -/
def cntM (rows : List Judgment) (m : Mention) : Nat :=
  (rows.filter (fun j => j.mention == m)).length

/-- All seven buckets are below the `u32` modulus. -/
def allLt (c : Counts7) : Prop :=
  c.bad < U32MOD ∧ c.inadequate < U32MOD ∧ c.passable < U32MOD ∧ c.fair < U32MOD ∧
    c.good < U32MOD ∧ c.very_good < U32MOD ∧ c.excellent < U32MOD

/-- `bump` keeps all buckets below the modulus. -/
theorem allLt_bump (c : Counts7) (m : Mention) (h : allLt c) : allLt (bump c m) := by
  obtain ⟨h1, h2, h3, h4, h5, h6, h7⟩ := h
  simp only [U32MOD] at *
  cases m <;> simp only [bump, allLt, U32MOD] <;>
    refine ⟨?_, ?_, ?_, ?_, ?_, ?_, ?_⟩ <;> omega

/-- Bucket count of a `cons`. -/
theorem cntM_cons (j : Judgment) (rest : List Judgment) (m : Mention) :
    cntM (j :: rest) m = cntM rest m + if j.mention = m then 1 else 0 := by
  simp only [cntM, List.filter_cons]
  by_cases h : j.mention = m
  · simp [h]
  · simp [h]

/-- Closed form of the wrapping count accumulation. -/
theorem foldl_bump (rows : List Judgment) (c : Counts7) (h : allLt c) :
    rows.foldl (fun c2 j => bump c2 j.mention) c =
      ⟨(c.bad + cntM rows .Bad) % U32MOD,
        (c.inadequate + cntM rows .Inadequate) % U32MOD,
        (c.passable + cntM rows .Passable) % U32MOD,
        (c.fair + cntM rows .Fair) % U32MOD,
        (c.good + cntM rows .Good) % U32MOD,
        (c.very_good + cntM rows .VeryGood) % U32MOD,
        (c.excellent + cntM rows .Excellent) % U32MOD⟩ := by
  induction rows generalizing c with
  | nil =>
    obtain ⟨h1, h2, h3, h4, h5, h6, h7⟩ := h
    simp only [List.foldl_nil, cntM, List.filter_nil, List.length_nil, Nat.add_zero]
    cases c
    simp only [Counts7.mk.injEq]
    exact ⟨(Nat.mod_eq_of_lt h1).symm, (Nat.mod_eq_of_lt h2).symm,
      (Nat.mod_eq_of_lt h3).symm, (Nat.mod_eq_of_lt h4).symm,
      (Nat.mod_eq_of_lt h5).symm, (Nat.mod_eq_of_lt h6).symm,
      (Nat.mod_eq_of_lt h7).symm⟩
  | cons j rest ih =>
    simp only [List.foldl_cons]
    rw [ih (bump c j.mention) (allLt_bump c j.mention h)]
    simp only [cntM_cons]
    cases hm : j.mention <;>
      simp only [bump, hm] <;>
      simp [Counts7.mk.injEq] <;>
      simp only [U32MOD] <;>
      omega

/-- The stored per-grade buckets are the exact ballot counts reduced modulo
`2^32` (plain wrapping `u32` addition). -/
theorem countsOf_eq (rows : List Judgment) :
    countsOf rows =
      ⟨cntM rows .Bad % U32MOD, cntM rows .Inadequate % U32MOD,
        cntM rows .Passable % U32MOD, cntM rows .Fair % U32MOD,
        cntM rows .Good % U32MOD, cntM rows .VeryGood % U32MOD,
        cntM rows .Excellent % U32MOD⟩ := by
  have h := foldl_bump rows zeroCounts
    (by refine ⟨?_, ?_, ?_, ?_, ?_, ?_, ?_⟩ <;> decide)
  simpa [countsOf, zeroCounts] using h

/-- Closed form of the saturating total accumulation. -/
theorem foldl_sat (rows : List Judgment) (t : Nat) (h : t ≤ U32MAX) :
    rows.foldl (fun t2 _ => satAdd t2 1) t = min (t + rows.length) U32MAX := by
  induction rows generalizing t with
  | nil =>
    simp only [List.foldl_nil, List.length_nil, Nat.add_zero]
    simp only [U32MAX] at *
    omega
  | cons j rest ih =>
    simp only [List.foldl_cons, List.length_cons]
    rw [ih (satAdd t 1) (by simp only [satAdd, U32MAX] at *; omega)]
    simp only [satAdd, U32MAX] at *
    omega

/-- The stored total is the saturated row count. -/
theorem totalOf_eq (rows : List Judgment) : totalOf rows = min rows.length U32MAX := by
  have h := foldl_sat rows 0 (by decide)
  simpa [totalOf] using h

/-- The seven exact bucket counts partition the rows. -/
theorem cntM_total (rows : List Judgment) :
    cntM rows .Bad + cntM rows .Inadequate + cntM rows .Passable + cntM rows .Fair +
      cntM rows .Good + cntM rows .VeryGood + cntM rows .Excellent = rows.length := by
  induction rows with
  | nil => simp [cntM]
  | cons j rest ih =>
    simp only [cntM] at ih ⊢
    cases hm : j.mention <;> simp [List.filter_cons, hm] <;> omega

/-- The counting loop as the spec words it: per-grade counts accumulated
with saturating `u32` arithmetic (what `counts[i] += 1` would be if it were
`counts[i] = counts[i].saturating_add(1)`). -/
def bumpSat (c : Counts7) : Mention → Counts7
  | .Bad => { c with bad := satAdd c.bad 1 }
  | .Inadequate => { c with inadequate := satAdd c.inadequate 1 }
  | .Passable => { c with passable := satAdd c.passable 1 }
  | .Fair => { c with fair := satAdd c.fair 1 }
  | .Good => { c with good := satAdd c.good 1 }
  | .VeryGood => { c with very_good := satAdd c.very_good 1 }
  | .Excellent => { c with excellent := satAdd c.excellent 1 }

/-- Saturating variant of the counting loop, per the spec's words. -/
def countsOfSat (rows : List Judgment) : Counts7 :=
  rows.foldl (fun c j => bumpSat c j.mention) zeroCounts

/-- All seven buckets at most `U32MAX`. -/
def allLe (c : Counts7) : Prop :=
  c.bad ≤ U32MAX ∧ c.inadequate ≤ U32MAX ∧ c.passable ≤ U32MAX ∧ c.fair ≤ U32MAX ∧
    c.good ≤ U32MAX ∧ c.very_good ≤ U32MAX ∧ c.excellent ≤ U32MAX

/-- `bumpSat` keeps all buckets at most `U32MAX`. -/
theorem allLe_bumpSat (c : Counts7) (m : Mention) (h : allLe c) : allLe (bumpSat c m) := by
  obtain ⟨h1, h2, h3, h4, h5, h6, h7⟩ := h
  simp only [U32MAX] at *
  cases m <;> simp only [bumpSat, allLe, satAdd, U32MAX] <;>
    refine ⟨?_, ?_, ?_, ?_, ?_, ?_, ?_⟩ <;> omega

/-- Closed form of the saturating count accumulation. -/
theorem foldl_bumpSat (rows : List Judgment) (c : Counts7) (h : allLe c) :
    rows.foldl (fun c2 j => bumpSat c2 j.mention) c =
      ⟨min (c.bad + cntM rows .Bad) U32MAX,
        min (c.inadequate + cntM rows .Inadequate) U32MAX,
        min (c.passable + cntM rows .Passable) U32MAX,
        min (c.fair + cntM rows .Fair) U32MAX,
        min (c.good + cntM rows .Good) U32MAX,
        min (c.very_good + cntM rows .VeryGood) U32MAX,
        min (c.excellent + cntM rows .Excellent) U32MAX⟩ := by
  induction rows generalizing c with
  | nil =>
    obtain ⟨h1, h2, h3, h4, h5, h6, h7⟩ := h
    simp only [List.foldl_nil, cntM, List.filter_nil, List.length_nil, Nat.add_zero]
    cases c
    simp only [Counts7.mk.injEq]
    simp only [U32MAX] at *
    refine ⟨?_, ?_, ?_, ?_, ?_, ?_, ?_⟩ <;> omega
  | cons j rest ih =>
    simp only [List.foldl_cons]
    rw [ih (bumpSat c j.mention) (allLe_bumpSat c j.mention h)]
    simp only [cntM_cons]
    cases hm : j.mention <;>
      simp only [bumpSat, hm] <;>
      simp [Counts7.mk.injEq] <;>
      simp only [satAdd, U32MAX] <;>
      omega

/-- Closed form of `countsOfSat`. -/
theorem countsOfSat_eq (rows : List Judgment) :
    countsOfSat rows =
      ⟨min (cntM rows .Bad) U32MAX, min (cntM rows .Inadequate) U32MAX,
        min (cntM rows .Passable) U32MAX, min (cntM rows .Fair) U32MAX,
        min (cntM rows .Good) U32MAX, min (cntM rows .VeryGood) U32MAX,
        min (cntM rows .Excellent) U32MAX⟩ := by
  have h := foldl_bumpSat rows zeroCounts
    (by refine ⟨?_, ?_, ?_, ?_, ?_, ?_, ?_⟩ <;> decide)
  simpa [countsOfSat, zeroCounts] using h

/-- Bucket count of a constant list of rows. -/
theorem cntM_replicate (n : Nat) (j : Judgment) (m : Mention) :
    cntM (List.replicate n j) m = if j.mention == m then n else 0 := by
  induction n with
  | zero => simp [cntM]
  | succ k ih =>
    simp only [List.replicate_succ, cntM, List.filter_cons] at ih ⊢
    cases hj : (j.mention == m) <;> simp [hj] at ih ⊢ <;> omega

/-- `2^32` identical ballot rows, all for option 1 and all graded `Bad`. -/
def bigRows : List Judgment := List.replicate U32MOD ⟨0, 1, 7, Mention.Bad⟩

/-- Counterexample to claim C9 as stated: with `2^32` `Bad` ballots the
source's per-grade accumulation (`counts[0] += 1` on `u32`) wraps silently
to `0`, while the saturating accumulation the spec describes stores
`2^32 - 1`; the two accumulations are not the same function. -/
theorem claim_C9_cex :
    (countsOf bigRows).bad = 0 ∧ (countsOfSat bigRows).bad = U32MAX ∧
      countsOf bigRows ≠ countsOfSat bigRows := by
  have hbadw : ∀ rows : List Judgment,
      (countsOf rows).bad = cntM rows .Bad % U32MOD := by
    intro rows; rw [countsOf_eq]
  have hbads : ∀ rows : List Judgment,
      (countsOfSat rows).bad = min (cntM rows .Bad) U32MAX := by
    intro rows; rw [countsOfSat_eq]
  have hb : cntM bigRows Mention.Bad = U32MOD := by
    rw [bigRows, cntM_replicate]; simp
  have h1 : (countsOf bigRows).bad = 0 := by
    rw [hbadw, hb, Nat.mod_self]
  have h2 : (countsOfSat bigRows).bad = U32MAX := by
    rw [hbads, hb]
    simp only [U32MOD, U32MAX]
    omega
  refine ⟨h1, h2, fun hcon => ?_⟩
  rw [hcon, h2] at h1
  exact absurd h1 (by decide)

/-- Claim C9 (amended): during the recount, the running total is accumulated
with saturating `u32` arithmetic and never wraps, but each per-grade bucket
is accumulated with plain (wrapping) `u32` addition and stores the exact
ballot count reduced modulo `2^32`. -/
theorem claim_C9 (rows : List Judgment) :
    totalOf rows = min rows.length U32MAX ∧
      countsOf rows =
        ⟨cntM rows .Bad % U32MOD, cntM rows .Inadequate % U32MOD,
          cntM rows .Passable % U32MOD, cntM rows .Fair % U32MOD,
          cntM rows .Good % U32MOD, cntM rows .VeryGood % U32MOD,
          cntM rows .Excellent % U32MOD⟩ :=
  ⟨totalOf_eq rows, countsOf_eq rows⟩

/-- Filtering for a key other than the upserted one is unchanged by the
update-in-place map. -/
theorem filter_map_replace_other (l : List MjSummary) (sm : MjSummary) (x : Nat)
    (hne : x ≠ sm.option_id) :
    ((l.map (fun y => if y.option_id == sm.option_id then sm else y)).filter
        (fun y => y.option_id == x)) = l.filter (fun y => y.option_id == x) := by
  induction l with
  | nil => simp
  | cons a rest ih =>
    simp only [List.map_cons, List.filter_cons]
    by_cases ha : a.option_id = sm.option_id
    · have h1 : (sm.option_id == x) = false := by
        rw [beq_eq_false_iff_ne]; exact Ne.symm hne
      have h2 : (a.option_id == x) = false := by
        rw [beq_eq_false_iff_ne]
        intro h; exact hne (by rw [← h, ha])
      have h3 : (a.option_id == sm.option_id) = true := by simp [ha]
      rw [h3]
      simp only [if_true, List.filter_cons, h1, Bool.false_eq_true, if_false, h2, ih]
    · have h3 : (a.option_id == sm.option_id) = false := by simp [ha]
      rw [h3]
      simp only [Bool.false_eq_true, if_false, List.filter_cons, ih]

/-- If no element matches, the update-in-place map leaves the filter empty. -/
theorem filter_map_replace_nil (l : List MjSummary) (sm : MjSummary)
    (h : l.filter (fun y => y.option_id == sm.option_id) = []) :
    ((l.map (fun y => if y.option_id == sm.option_id then sm else y)).filter
        (fun y => y.option_id == sm.option_id)) = [] := by
  induction l with
  | nil => simp
  | cons a rest ih =>
    simp only [List.filter_cons] at h
    by_cases ha : a.option_id = sm.option_id
    · rw [if_pos (by simp [ha])] at h
      cases h
    · have h3 : (a.option_id == sm.option_id) = false := by simp [ha]
      rw [h3] at h
      simp only [Bool.false_eq_true, if_false] at h
      simp only [List.map_cons, h3, Bool.false_eq_true, if_false, List.filter_cons]
      exact ih h

/-- If exactly one element matches, the update-in-place map leaves exactly
the new row at the key. -/
theorem filter_map_replace_one (l : List MjSummary) (sm : MjSummary)
    (hlen : (l.filter (fun y => y.option_id == sm.option_id)).length ≤ 1)
    (hne : l.filter (fun y => y.option_id == sm.option_id) ≠ []) :
    ((l.map (fun y => if y.option_id == sm.option_id then sm else y)).filter
        (fun y => y.option_id == sm.option_id)) = [sm] := by
  induction l with
  | nil => simp at hne
  | cons a rest ih =>
    by_cases ha : a.option_id = sm.option_id
    · have h3 : (a.option_id == sm.option_id) = true := by simp [ha]
      have hrest : rest.filter (fun y => y.option_id == sm.option_id) = [] := by
        rw [List.filter_cons, h3] at hlen
        simp only [if_true, List.length_cons] at hlen
        exact List.eq_nil_of_length_eq_zero (by omega)
      simp only [List.map_cons, h3, if_true, List.filter_cons, beq_self_eq_true]
      rw [filter_map_replace_nil rest sm hrest]
    · have h3 : (a.option_id == sm.option_id) = false := by simp [ha]
      rw [List.filter_cons, h3] at hlen hne
      simp only [Bool.false_eq_true, if_false] at hlen hne
      simp only [List.map_cons, h3, Bool.false_eq_true, if_false, List.filter_cons]
      exact ih hlen hne

/-- After an upsert, the rows matching the upserted key are exactly the new
row, provided the key was never duplicated. -/
theorem upsert_filter_self (l : List MjSummary) (sm : MjSummary)
    (h : (l.filter (fun y => y.option_id == sm.option_id)).length ≤ 1) :
    (upsert l sm).filter (fun y => y.option_id == sm.option_id) = [sm] := by
  unfold upsert
  rcases hf : l.find? (fun x => x.option_id == sm.option_id) with _ | row
  · have hnone : l.filter (fun y => y.option_id == sm.option_id) = [] := by
      rw [List.filter_eq_nil_iff]
      intro a ha
      exact List.find?_eq_none.mp hf a ha
    rw [hf]
    simp only [Option.isSome_none, Bool.false_eq_true, if_false]
    rw [List.filter_append, hnone]
    simp
  · rw [hf]
    simp only [Option.isSome_some, if_true]
    have hne2 : l.filter (fun y => y.option_id == sm.option_id) ≠ [] := by
      intro hnil
      have hp : (row.option_id == sm.option_id) = true :=
        @List.find?_some _ (fun y => y.option_id == sm.option_id) row l hf
      have hrow : row ∈ l := List.mem_of_find?_eq_some hf
      have hmem : row ∈ l.filter (fun y => y.option_id == sm.option_id) :=
        List.mem_filter.mpr ⟨hrow, hp⟩
      rw [hnil] at hmem
      simp at hmem
    exact filter_map_replace_one l sm h hne2

/-- Upserting keeps every key's multiplicity at most one. -/
theorem upsert_mult (l : List MjSummary) (sm : MjSummary)
    (h : ∀ x, (l.filter (fun y => y.option_id == x)).length ≤ 1) :
    ∀ x, ((upsert l sm).filter (fun y => y.option_id == x)).length ≤ 1 := by
  intro x
  by_cases hx : x = sm.option_id
  · rw [hx, upsert_filter_self l sm (h sm.option_id)]
    simp
  · unfold upsert
    rcases hf : l.find? (fun y => y.option_id == sm.option_id) with _ | row
    · rw [hf]
      simp only [Option.isSome_none, Bool.false_eq_true, if_false]
      rw [List.filter_append]
      have hcond : ¬ ((sm.option_id == x) = true) := by
        simp only [beq_iff_eq]
        exact fun h2 => hx h2.symm
      have hnil : [sm].filter (fun y => y.option_id == x) = [] := by
        simp only [List.filter_cons, List.filter_nil, hcond, Bool.false_eq_true, if_false]
      rw [hnil, List.append_nil]
      exact h x
    · rw [hf]
      simp only [Option.isSome_some, if_true]
      rw [filter_map_replace_other l sm x hx]
      exact h x

/-- A fold of upserts whose keys avoid `x` does not change the rows at `x`. -/
theorem fold_upsert_other (items : List MjSummary) (acc : List MjSummary) (x : Nat)
    (h : ∀ sm ∈ items, sm.option_id ≠ x) :
    (items.foldl upsert acc).filter (fun y => y.option_id == x) =
      acc.filter (fun y => y.option_id == x) := by
  induction items generalizing acc with
  | nil => simp
  | cons a rest ih =>
    simp only [List.foldl_cons]
    rw [ih (upsert acc a) (fun sm hsm => h sm (List.mem_cons_of_mem a hsm))]
    unfold upsert
    rcases hf : acc.find? (fun y => y.option_id == a.option_id) with _ | row
    · rw [hf]
      simp only [Option.isSome_none, Bool.false_eq_true, if_false]
      rw [List.filter_append]
      have hcond : ¬ ((a.option_id == x) = true) := by
        simp only [beq_iff_eq]
        exact h a (List.mem_cons_self a rest)
      have hnil : [a].filter (fun y => y.option_id == x) = [] := by
        simp only [List.filter_cons, List.filter_nil, hcond, Bool.false_eq_true, if_false]
      rw [hnil, List.append_nil]
    · rw [hf]
      simp only [Option.isSome_some, if_true]
      exact filter_map_replace_other acc a x
        (fun h2 => h a (List.mem_cons_self a rest) h2.symm)

/-- After folding upserts with pairwise distinct keys over a well-formed
accumulator, each item is exactly the stored row at its key. -/
theorem fold_upsert_filter (items : List MjSummary) (acc : List MjSummary)
    (hmult : ∀ x, (acc.filter (fun y => y.option_id == x)).length ≤ 1)
    (hnd : (items.map (fun y => y.option_id)).Nodup) :
    ∀ sm ∈ items, (items.foldl upsert acc).filter
        (fun y => y.option_id == sm.option_id) = [sm] := by
  induction items generalizing acc with
  | nil => intro sm hsm; simp at hsm
  | cons a rest ih =>
    intro sm hsm
    simp only [List.map_cons, List.nodup_cons] at hnd
    rcases List.mem_cons.mp hsm with rfl | hsm2
    · simp only [List.foldl_cons]
      rw [fold_upsert_other rest (upsert acc sm) sm.option_id
        (fun t ht h2 => hnd.1 (List.mem_map.mpr ⟨t, ht, h2⟩))]
      exact upsert_filter_self acc sm (hmult sm.option_id)
    · simp only [List.foldl_cons]
      exact ih (upsert acc a) (upsert_mult acc a hmult) hnd.2 sm hsm2

/-- `findIdx?` with start index `i` returns an absolute index at least `i`,
in range, whose element satisfies the predicate. -/
theorem findIdx?_go_spec {α : Type} (l : List α) (p : α → Bool) (d : α) :
    ∀ i j, List.findIdx? p l i = some j →
      i ≤ j ∧ j - i < l.length ∧ p (l.getD (j - i) d) = true := by
  induction l with
  | nil => intro i j h; simp [List.findIdx?] at h
  | cons a rest ih =>
    intro i j h
    rw [List.findIdx?_cons] at h
    by_cases hp : p a
    · simp only [hp, if_true] at h
      injection h with h
      subst h
      simp [hp]
    · simp only [hp, Bool.false_eq_true, if_false] at h
      obtain ⟨h1, h2, h3⟩ := ih (i + 1) j h
      refine ⟨by omega, by simp only [List.length_cons]; omega, ?_⟩
      have he : j - i = (j - (i + 1)) + 1 := by omega
      rw [he]
      simpa using h3

/-- `findIdx?` returns an in-range index whose element satisfies the
predicate. -/
theorem findIdx?_spec {α : Type} (l : List α) (p : α → Bool) (j : Nat) (d : α)
    (h : l.findIdx? p = some j) : j < l.length ∧ p (l.getD j d) = true := by
  obtain ⟨-, h2, h3⟩ := findIdx?_go_spec l p d 0 j h
  rw [Nat.sub_zero] at h2 h3
  exact ⟨h2, h3⟩

/-- `findIdx?` finds an index when some member satisfies the predicate. -/
theorem findIdx?_isSome {α : Type} (l : List α) (p : α → Bool) (a : α)
    (ha : a ∈ l) (hp : p a = true) : ∀ i, (List.findIdx? p l i).isSome = true := by
  induction l with
  | nil => simp at ha
  | cons b rest ih =>
    intro i
    rw [List.findIdx?_cons]
    by_cases hb : p b
    · simp [hb]
    · rcases List.mem_cons.mp ha with rfl | ha2
      · exact absurd hp (by simpa using hb)
      · simp only [hb, Bool.false_eq_true, if_false]
        exact ih ha2 (i + 1)

/-- Zipping a list with its own map pairs each element with its image. -/
theorem zip_self_map {α β : Type} (l : List α) (f : α → β) :
    l.zip (l.map f) = l.map (fun x => (x, f x)) := by
  induction l with
  | nil => rfl
  | cons a rest ih => simp [ih]

/-- The summaries written by `recompute_mj_summary_for_vote`, as a fold of
upserts over one assembled row per option. -/
theorem recompute_summaries_eq (s : State) (vid : Nat) :
    (recompute_mj_summary_for_vote s vid).summaries =
      ((get_vote_options s vid).map (fun o =>
          mkSummary vid o.id
            (((get_vote_options s vid).map (fun o2 => totalOf (rows_for s o2.id))).getD
              ((((get_vote_options s vid).map
                    (fun o2 => countsOf (rows_for s o2.id))).findIdx?
                  (fun c => c == countsOf (rows_for s o.id))).getD 0) 0)
            (countsOf (rows_for s o.id)))).foldl upsert s.summaries := by
  show ((get_vote_options s vid).zip
      ((get_vote_options s vid).map (fun o => countsOf (rows_for s o.id)))).foldl
      _ s.summaries = _
  rw [zip_self_map, ← List.foldl_map, List.map_map]
  rfl

/-- The exact (unwrapped) counts of an option with fewer than `2^32` rows. -/
theorem countsOf_exact (rows : List Judgment) (h : rows.length < U32MOD) :
    countsOf rows =
      ⟨cntM rows .Bad, cntM rows .Inadequate, cntM rows .Passable, cntM rows .Fair,
        cntM rows .Good, cntM rows .VeryGood, cntM rows .Excellent⟩ := by
  rw [countsOf_eq]
  have hle : ∀ m, cntM rows m ≤ rows.length := fun m => List.length_filter_le _ _
  congr 1 <;> exact Nat.mod_eq_of_lt (lt_of_le_of_lt (hle _) h)

/-- The bucket sum of the counts of an option with fewer than `2^32` rows is
the row count. -/
theorem countsOf_sum_exact (rows : List Judgment) (h : rows.length < U32MOD) :
    (countsOf rows).bad + (countsOf rows).inadequate + (countsOf rows).passable +
        (countsOf rows).fair + (countsOf rows).good + (countsOf rows).very_good +
        (countsOf rows).excellent = rows.length := by
  rw [countsOf_exact rows h]
  exact cntM_total rows

/-- The saturated total of an option with fewer than `2^32` rows is exact. -/
theorem totalOf_exact (rows : List Judgment) (h : rows.length < U32MOD) :
    totalOf rows = rows.length := by
  rw [totalOf_eq]
  simp only [U32MOD] at h
  simp only [U32MAX]
  omega

/-- Claim C6 (amended): after a summary recompute for a vote in which every
option carries fewer than `2^32` ballot rows (and with well-formed unique
option ids and summary keys), each option's stored summary has its seven
per-grade counts summing to the stored total, which equals the number of
ballot rows recorded for that option. -/
theorem claim_C6 (s : State) (vid : Nat)
    (hmult : ∀ x, (s.summaries.filter (fun y => y.option_id == x)).length ≤ 1)
    (hnd : ((get_vote_options s vid).map (fun o => o.id)).Nodup)
    (hsmall : ∀ o ∈ get_vote_options s vid, (rows_for s o.id).length < U32MOD) :
    ∀ o ∈ get_vote_options s vid,
      ∃ sm, (recompute_mj_summary_for_vote s vid).summaries.filter
          (fun y => y.option_id == o.id) = [sm] ∧
        sm.bad + sm.inadequate + sm.passable + sm.fair + sm.good + sm.very_good +
            sm.excellent = sm.total ∧
        sm.total = (rows_for s o.id).length := by
  intro o ho
  have hlookup :
      ((get_vote_options s vid).map (fun o2 => totalOf (rows_for s o2.id))).getD
        ((((get_vote_options s vid).map
              (fun o2 => countsOf (rows_for s o2.id))).findIdx?
            (fun c => c == countsOf (rows_for s o.id))).getD 0) 0 =
      (rows_for s o.id).length := by
    have hc_mem : countsOf (rows_for s o.id) ∈
        (get_vote_options s vid).map (fun o2 => countsOf (rows_for s o2.id)) :=
      List.mem_map_of_mem _ ho
    have hisSome := findIdx?_isSome
      ((get_vote_options s vid).map (fun o2 => countsOf (rows_for s o2.id)))
      (fun c => c == countsOf (rows_for s o.id)) _ hc_mem (by simp) 0
    rcases hj : ((get_vote_options s vid).map
        (fun o2 => countsOf (rows_for s o2.id))).findIdx?
        (fun c => c == countsOf (rows_for s o.id)) with _ | j
    · rw [hj] at hisSome
      simp at hisSome
    · obtain ⟨hjlt, hjp⟩ := findIdx?_spec _ _ j zeroCounts hj
      have hjlt2 : j < (get_vote_options s vid).length := by simpa using hjlt
      have hjeq : countsOf (rows_for s (get_vote_options s vid)[j].id) =
          countsOf (rows_for s o.id) := by
        have := hjp
        rw [List.getD_eq_getElem _ _ hjlt, List.getElem_map] at this
        simpa using this
      have hoj : (get_vote_options s vid)[j] ∈ get_vote_options s vid :=
        List.getElem_mem hjlt2
      have hlen_eq : (rows_for s (get_vote_options s vid)[j].id).length =
          (rows_for s o.id).length := by
        have h1 := countsOf_sum_exact (rows_for s (get_vote_options s vid)[j].id)
          (hsmall _ hoj)
        have h2 := countsOf_sum_exact (rows_for s o.id) (hsmall o ho)
        rw [hjeq] at h1
        omega
      rw [hj]
      simp only [Option.getD_some]
      rw [List.getD_eq_getElem _ _ (by simpa using hjlt2), List.getElem_map]
      rw [totalOf_exact _ (hsmall _ hoj), hlen_eq]
  have hnd2 : (((get_vote_options s vid).map (fun o2 =>
      mkSummary vid o2.id
        (((get_vote_options s vid).map (fun o3 => totalOf (rows_for s o3.id))).getD
          ((((get_vote_options s vid).map
                (fun o3 => countsOf (rows_for s o3.id))).findIdx?
              (fun c => c == countsOf (rows_for s o2.id))).getD 0) 0)
        (countsOf (rows_for s o2.id)))).map
      (fun y => y.option_id)).Nodup := by
    rw [List.map_map]
    exact hnd
  have hfold := fold_upsert_filter _ s.summaries hmult hnd2 _
    (List.mem_map_of_mem (fun o2 =>
      mkSummary vid o2.id
        (((get_vote_options s vid).map (fun o3 => totalOf (rows_for s o3.id))).getD
          ((((get_vote_options s vid).map
                (fun o3 => countsOf (rows_for s o3.id))).findIdx?
              (fun c => c == countsOf (rows_for s o2.id))).getD 0) 0)
        (countsOf (rows_for s o2.id))) ho)
  rw [← recompute_summaries_eq] at hfold
  refine ⟨_, hfold, ?_, ?_⟩
  · show (countsOf (rows_for s o.id)).bad + (countsOf (rows_for s o.id)).inadequate +
        (countsOf (rows_for s o.id)).passable + (countsOf (rows_for s o.id)).fair +
        (countsOf (rows_for s o.id)).good + (countsOf (rows_for s o.id)).very_good +
        (countsOf (rows_for s o.id)).excellent = _
    rw [countsOf_sum_exact _ (hsmall o ho), hlookup]
    rfl
  · exact hlookup

/-- Witness for claim C6: one option, one `Good` ballot; the recomputed
summary stores count sum = total = 1. -/
theorem claim_C6_witness :
    ∃ sm, (recompute_mj_summary_for_vote
          ⟨[⟨1, VotingSystem.MajorityJudgment⟩], [⟨1, 1⟩],
            [⟨0, 1, 7, Mention.Good⟩], [], 1⟩ 1).summaries.filter
        (fun y => y.option_id == (⟨1, 1⟩ : VoteOption).id) = [sm] ∧
      sm.bad + sm.inadequate + sm.passable + sm.fair + sm.good + sm.very_good +
          sm.excellent = sm.total ∧
      sm.total = (rows_for
        ⟨[⟨1, VotingSystem.MajorityJudgment⟩], [⟨1, 1⟩],
          [⟨0, 1, 7, Mention.Good⟩], [], 1⟩ (⟨1, 1⟩ : VoteOption).id).length :=
  claim_C6 ⟨[⟨1, VotingSystem.MajorityJudgment⟩], [⟨1, 1⟩],
      [⟨0, 1, 7, Mention.Good⟩], [], 1⟩ 1
    (fun x => by simp) (by decide) (by decide) ⟨1, 1⟩ (by decide)

/-- The state of the claim C6 counterexample: one Majority Judgment vote,
one option, `2^32` `Bad` ballot rows for it. -/
def bigState : State :=
  ⟨[⟨1, VotingSystem.MajorityJudgment⟩], [⟨1, 1⟩], bigRows, [], 0⟩

/-- The counterexample rows of `bigState` are exactly `bigRows`. -/
theorem bigState_rows : rows_for bigState 1 = bigRows := by
  show bigRows.filter (fun j => j.option_id == 1) = bigRows
  rw [bigRows, List.filter_replicate]
  simp

/-- The wrapped counts of the counterexample rows are all zero. -/
theorem bigRows_counts : countsOf bigRows = ⟨0, 0, 0, 0, 0, 0, 0⟩ := by
  have hb : cntM bigRows Mention.Bad = U32MOD := by
    rw [bigRows, cntM_replicate]; simp
  have hz : ∀ m : Mention, m ≠ Mention.Bad → cntM bigRows m = 0 := by
    intro m hm
    rw [bigRows, cntM_replicate]
    simp only [show ((⟨0, 1, 7, Mention.Bad⟩ : Judgment).mention == m) = false by
      simp only [beq_eq_false_iff_ne]
      exact fun h => hm h.symm, Bool.false_eq_true, if_false]
  rw [countsOf_eq, hb]
  rw [hz Mention.Inadequate (by simp), hz Mention.Passable (by simp),
    hz Mention.Fair (by simp), hz Mention.Good (by simp),
    hz Mention.VeryGood (by simp), hz Mention.Excellent (by simp)]
  simp

/-- The saturated total of the counterexample rows is `2^32 - 1`. -/
theorem bigRows_total : totalOf bigRows = U32MAX := by
  rw [totalOf_eq, bigRows, List.length_replicate]
  simp only [U32MOD, U32MAX]
  omega

/-- Counterexample to claim C6 as stated: with `2^32` ballot rows on its
only option, the recomputed summary stores total `2^32 - 1` (saturated) and
all per-grade counts `0` (wrapped), so the count sum (`0`), the stored total
(`2^32 - 1`) and the true row count (`2^32`) are pairwise different. -/
theorem claim_C6_cex :
    (recompute_mj_summary_for_vote bigState 1).summaries =
        [⟨1, 1, U32MAX, 0, 0, 0, 0, 0, 0, 0⟩] ∧
      (rows_for bigState 1).length = U32MOD := by
  constructor
  · have hopts : get_vote_options bigState 1 = [⟨1, 1⟩] := rfl
    rw [recompute_summaries_eq, hopts]
    simp only [List.map_cons, List.map_nil]
    rw [bigState_rows, bigRows_counts, bigRows_total]
    simp only [List.findIdx?_cons, beq_self_eq_true, if_true, Option.getD_some,
      List.getD_cons_zero, List.foldl_cons, List.foldl_nil]
    rfl
  · rw [bigState_rows, bigRows, List.length_replicate]

/-- Recompute only writes the summaries table. -/
theorem recompute_judgments (s : State) (vid : Nat) :
    (recompute_mj_summary_for_vote s vid).judgments = s.judgments := rfl

/-- Recompute keeps the options table. -/
theorem recompute_options (s : State) (vid : Nat) :
    (recompute_mj_summary_for_vote s vid).options = s.options := rfl

/-- Recompute keeps the votes table. -/
theorem recompute_votes (s : State) (vid : Nat) :
    (recompute_mj_summary_for_vote s vid).votes = s.votes := rfl

/-- Recompute keeps the id counter. -/
theorem recompute_next_id (s : State) (vid : Nat) :
    (recompute_mj_summary_for_vote s vid).next_id = s.next_id := rfl

/-- The ballot rows inserted by the seeding loop, one per option, with
consecutive fresh ids starting at `n`. -/
def seedRows (voter : Nat) (m : Mention) : Nat → List VoteOption → List Judgment
  | _, [] => []
  | n, o :: rest => ⟨n, o.id, voter, m⟩ :: seedRows voter m (n + 1) rest

/-- Effect of the seeding loop on the state. -/
theorem seed_foldl (opts : List VoteOption) (st : State) (sender : Nat) :
    (opts.foldl (fun st2 opt => insertJ st2 opt.id sender Mention.Bad) st).judgments =
        st.judgments ++ seedRows sender Mention.Bad st.next_id opts ∧
      (opts.foldl (fun st2 opt => insertJ st2 opt.id sender Mention.Bad) st).options =
        st.options ∧
      (opts.foldl (fun st2 opt => insertJ st2 opt.id sender Mention.Bad) st).votes =
        st.votes := by
  induction opts generalizing st with
  | nil => simp [seedRows]
  | cons o rest ih =>
    simp only [List.foldl_cons, seedRows]
    obtain ⟨h1, h3, h4⟩ := ih (insertJ st o.id sender Mention.Bad)
    refine ⟨?_, ?_, ?_⟩
    · rw [h1]
      simp [insertJ]
    · rw [h3]; rfl
    · rw [h4]; rfl

/-- Every seeded row carries the seeding voter, the sentinel mention, and an
id at least the starting counter. -/
theorem seedRows_mem (voter : Nat) (m : Mention) :
    ∀ (n : Nat) (opts : List VoteOption) (j : Judgment), j ∈ seedRows voter m n opts →
      j.voter = voter ∧ j.mention = m ∧ n ≤ j.id := by
  intro n opts
  induction opts generalizing n with
  | nil => intro j hj; simp [seedRows] at hj
  | cons o rest ih =>
    intro j hj
    simp only [seedRows, List.mem_cons] at hj
    rcases hj with rfl | hj
    · exact ⟨rfl, rfl, Nat.le_refl n⟩
    · obtain ⟨a, b, c⟩ := ih (n + 1) j hj
      exact ⟨a, b, by omega⟩

/-- The seeded rows' ids are the consecutive range starting at `n`. -/
theorem seedRows_ids (voter : Nat) (m : Mention) :
    ∀ (n : Nat) (opts : List VoteOption),
      (seedRows voter m n opts).map (fun j => j.id) = List.range' n opts.length := by
  intro n opts
  induction opts generalizing n with
  | nil => simp [seedRows]
  | cons o rest ih =>
    simp only [seedRows, List.map_cons, List.length_cons, List.range'_succ]
    rw [ih (n + 1)]

/-- No seeded row mentions an option id outside the seeded options. -/
theorem seedRows_filter_not_mem (voter : Nat) (m : Mention) :
    ∀ (n : Nat) (opts : List VoteOption) (x : Nat),
      x ∉ opts.map (fun o => o.id) →
      (seedRows voter m n opts).filter (fun j => j.option_id == x) = [] := by
  intro n opts
  induction opts generalizing n with
  | nil => intro x hx; simp [seedRows]
  | cons o rest ih =>
    intro x hx
    simp only [List.map_cons, List.mem_cons, not_or] at hx
    simp only [seedRows, List.filter_cons]
    rw [if_neg (by simp; exact fun h => hx.1 h.symm)]
    exact ih (n + 1) x hx.2

/-- For an option of the vote, exactly one seeded row exists, and its id is
fresh. -/
theorem seedRows_filter_mem (voter : Nat) (m : Mention) :
    ∀ (n : Nat) (opts : List VoteOption) (o : VoteOption),
      (opts.map (fun o2 => o2.id)).Nodup → o ∈ opts →
      ∃ k, n ≤ k ∧
        (seedRows voter m n opts).filter (fun j => j.option_id == o.id) =
          [⟨k, o.id, voter, m⟩] := by
  intro n opts
  induction opts generalizing n with
  | nil => intro o _ ho; simp at ho
  | cons o2 rest ih =>
    intro o hnd ho
    simp only [List.map_cons, List.nodup_cons] at hnd
    rcases List.mem_cons.mp ho with rfl | ho2
    · refine ⟨n, Nat.le_refl n, ?_⟩
      simp only [seedRows, List.filter_cons]
      rw [if_pos (by simp)]
      rw [seedRows_filter_not_mem voter m (n + 1) rest o.id hnd.1]
    · obtain ⟨k, hk, hfil⟩ := ih (n + 1) o hnd.2 ho2
      refine ⟨k, by omega, ?_⟩
      simp only [seedRows, List.filter_cons]
      rw [if_neg (by
        simp only [beq_iff_eq]
        intro h
        exact hnd.1 (List.mem_map.mpr ⟨o, ho2, h.symm⟩))]
      exact hfil

/-- Dropping an always-true voter conjunct from a filter over rows that all
belong to the voter. -/
theorem filter_voter_and (S : List Judgment) (sender : Nat) (P : Judgment → Bool)
    (h : ∀ j ∈ S, j.voter = sender) :
    S.filter (fun j => P j && (j.voter == sender)) = S.filter P := by
  apply List.filter_congr
  intro j hj
  rw [h j hj]
  simp

/-- Dropping an always-true leading voter conjunct. -/
theorem filter_and_voter (S : List Judgment) (sender : Nat) (P : Judgment → Bool)
    (h : ∀ j ∈ S, j.voter = sender) :
    S.filter (fun j => (j.voter == sender) && P j) = S.filter P := by
  apply List.filter_congr
  intro j hj
  rw [h j hj]
  simp

/-- Claim C5: a `cast_judgment` call on an existing option of a Majority
Judgment vote by a voter holding no ballot row for any option of the vote
succeeds, seeds one row per option at the worst-grade sentinel `Bad`, and
sets the target option's row to the requested grade: afterwards the voter
holds exactly one row per option of the vote, the target option at the
requested mention and every other option at `Bad`. -/
theorem claim_C5 (s : State) (sender option_id : Nat) (mention : Mention)
    (opt : VoteOption) (vote : Vote)
    (hopt : find_vote_option_by_id s option_id = some opt)
    (hvote : find_vote_by_id s opt.vote_id = some vote)
    (hsys : vote.voting_system = VotingSystem.MajorityJudgment)
    (hempty : ∀ j ∈ s.judgments, j.voter = sender →
      ∀ o ∈ s.options, o.vote_id = opt.vote_id → j.option_id ≠ o.id)
    (hids : ∀ j ∈ s.judgments, j.id < s.next_id)
    (hnd : ((get_vote_options s opt.vote_id).map (fun o => o.id)).Nodup) :
    (cast_judgment s sender option_id mention).1 = Except.ok () ∧
      ∀ o ∈ get_vote_options s opt.vote_id,
        ((cast_judgment s sender option_id mention).2.judgments.filter
            (fun j => (j.voter == sender) && (j.option_id == o.id))).map
          (fun j => j.mention) =
          [if o.id = option_id then mention else Mention.Bad] := by
  have hvote2 : List.find? (fun v => v.id == opt.vote_id) s.votes = some vote := hvote
  have hopt2 : List.find? (fun o => o.id == option_id) s.options = some opt := hopt
  have hvid : vote.id = opt.vote_id := by
    have h := @List.find?_some _ (fun v => v.id == opt.vote_id) vote s.votes hvote2
    simpa using h
  have hoptmem : opt ∈ s.options := List.mem_of_find?_eq_some hopt2
  have hoptid : opt.id = option_id := by
    have h := @List.find?_some _ (fun o => o.id == option_id) opt s.options hopt2
    simpa using h
  have hopt_in : opt ∈ get_vote_options s vote.id := by
    rw [hvid]
    exact List.mem_filter.mpr ⟨hoptmem, by simp⟩
  have hnd2 : ((get_vote_options s vote.id).map (fun o => o.id)).Nodup := by
    rw [hvid]; exact hnd
  -- no existing rows of the voter for any option of the vote
  have hold : ∀ o ∈ get_vote_options s vote.id,
      s.judgments.filter (fun j => (j.voter == sender) && (j.option_id == o.id)) = [] := by
    intro o ho
    rw [List.filter_eq_nil_iff]
    intro j hj hcond
    rw [Bool.and_eq_true, beq_iff_eq, beq_iff_eq] at hcond
    have homem := List.mem_filter.mp ho
    exact hempty j hj hcond.1 o homem.1 (by rw [hvid] at homem; simpa using homem.2)
      hcond.2
  have hexist : ((get_vote_options s vote.id).flatMap
      (fun opt2 => (s.judgments.filter (fun j => j.option_id == opt2.id)).filter
        (fun j => j.voter == sender))) = [] := by
    apply List.bind_eq_nil.mpr
    intro o ho
    rw [List.filter_filter]
    exact hold o ho
  -- the seeded intermediate state
  obtain ⟨hj1, ho1, hv1⟩ := seed_foldl (get_vote_options s vote.id) s sender
  have hSvoter : ∀ j ∈ seedRows sender Mention.Bad s.next_id
      (get_vote_options s vote.id), j.voter = sender :=
    fun j hj => (seedRows_mem sender Mention.Bad s.next_id _ j hj).1
  have hSids : (seedRows sender Mention.Bad s.next_id
      (get_vote_options s vote.id)).map (fun j => j.id) =
      List.range' s.next_id (get_vote_options s vote.id).length :=
    seedRows_ids sender Mention.Bad s.next_id _
  have hSnodup : ((seedRows sender Mention.Bad s.next_id
      (get_vote_options s vote.id)).map (fun j => j.id)).Nodup := by
    rw [hSids]
    exact List.nodup_range' s.next_id _
  obtain ⟨k, hk, hfilS⟩ := seedRows_filter_mem sender Mention.Bad s.next_id
    (get_vote_options s vote.id) opt hnd2 hopt_in
  have hrow_mem : (⟨k, opt.id, sender, Mention.Bad⟩ : Judgment) ∈
      seedRows sender Mention.Bad s.next_id (get_vote_options s vote.id) := by
    apply List.mem_of_mem_filter (p := fun j => j.option_id == opt.id)
    rw [hfilS]
    exact List.mem_cons_self _ _
  -- the located existing judgment after seeding
  have hfind : (((recompute_mj_summary_for_vote
        ((get_vote_options s vote.id).foldl
          (fun st2 opt2 => insertJ st2 opt2.id sender Mention.Bad) s)
        vote.id).judgments.filter (fun j => j.option_id == option_id)).filter
      (fun j => j.voter == sender)) = [⟨k, opt.id, sender, Mention.Bad⟩] := by
    rw [recompute_judgments, hj1, List.filter_filter, List.filter_append]
    rw [← hoptid]
    rw [hold opt hopt_in]
    rw [filter_and_voter _ sender _ hSvoter, hfilS]
    rfl
  -- rows of a vote option in the seeded table
  have hfil_o : ∀ o ∈ get_vote_options s vote.id, ∃ ko,
      s.next_id ≤ ko ∧
      (seedRows sender Mention.Bad s.next_id
          (get_vote_options s vote.id)).filter (fun j => j.option_id == o.id) =
        [⟨ko, o.id, sender, Mention.Bad⟩] :=
    fun o ho => seedRows_filter_mem sender Mention.Bad s.next_id _ o hnd2 ho
  by_cases hmen : mention = Mention.Bad
  · -- the requested mention is the sentinel: no in-place update happens
    have hcast : cast_judgment s sender option_id mention =
        (Except.ok (), recompute_mj_summary_for_vote
          (recompute_mj_summary_for_vote
            ((get_vote_options s vote.id).foldl
              (fun st2 opt2 => insertJ st2 opt2.id sender Mention.Bad) s)
            vote.id) opt.vote_id) := by
      simp only [cast_judgment, hopt, hvote]
      rw [if_neg (show ¬(vote.voting_system ≠ VotingSystem.MajorityJudgment) from
        fun hne => hne hsys)]
      rw [hexist]
      simp only [List.isEmpty_nil, if_true]
      rw [hfind]
      simp only [List.head?_cons]
      rw [if_neg (show ¬((⟨k, opt.id, sender, Mention.Bad⟩ : Judgment).mention ≠
          mention) from fun hne => hne (by rw [hmen]))]
    refine ⟨by rw [hcast], ?_⟩
    intro o ho2
    have ho : o ∈ get_vote_options s vote.id := by rw [hvid]; exact ho2
    rw [hcast]
    show (((recompute_mj_summary_for_vote _ opt.vote_id).judgments.filter
        (fun j => (j.voter == sender) && (j.option_id == o.id))).map
      (fun j => j.mention)) = _
    rw [recompute_judgments, recompute_judgments, hj1, List.filter_append]
    rw [hold o ho, filter_and_voter _ sender _ hSvoter]
    obtain ⟨ko, hko, hfo⟩ := hfil_o o ho
    rw [hfo]
    simp only [List.nil_append, List.map_cons, List.map_nil]
    rw [hmen, ite_self]
  · -- a genuine in-place update of the target row happens
    have hcast : cast_judgment s sender option_id mention =
        (Except.ok (), recompute_mj_summary_for_vote
          (updateJ
            (recompute_mj_summary_for_vote
              ((get_vote_options s vote.id).foldl
                (fun st2 opt2 => insertJ st2 opt2.id sender Mention.Bad) s)
              vote.id)
            ⟨k, opt.id, sender, mention⟩) opt.vote_id) := by
      simp only [cast_judgment, hopt, hvote]
      rw [if_neg (show ¬(vote.voting_system ≠ VotingSystem.MajorityJudgment) from
        fun hne => hne hsys)]
      rw [hexist]
      simp only [List.isEmpty_nil, if_true]
      rw [hfind]
      simp only [List.head?_cons]
      rw [if_pos (show (⟨k, opt.id, sender, Mention.Bad⟩ : Judgment).mention ≠
          mention from fun h => hmen h.symm)]
    refine ⟨by rw [hcast], ?_⟩
    intro o ho2
    have ho : o ∈ get_vote_options s vote.id := by rw [hvid]; exact ho2
    rw [hcast]
    show (((recompute_mj_summary_for_vote (updateJ _ _) opt.vote_id).judgments.filter
        (fun j => (j.voter == sender) && (j.option_id == o.id))).map
      (fun j => j.mention)) = _
    rw [recompute_judgments]
    have hupd : (updateJ
        (recompute_mj_summary_for_vote
          ((get_vote_options s vote.id).foldl
            (fun st2 opt2 => insertJ st2 opt2.id sender Mention.Bad) s)
          vote.id)
        ⟨k, opt.id, sender, mention⟩).judgments =
        (s.judgments ++ seedRows sender Mention.Bad s.next_id
          (get_vote_options s vote.id)).map
          (fun j => if j.id == k then ⟨k, opt.id, sender, mention⟩ else j) := by
      show (recompute_mj_summary_for_vote _ vote.id).judgments.map _ = _
      rw [recompute_judgments, hj1]
    rw [hupd, List.map_append, List.filter_append]
    -- old rows have small ids and are untouched, and the voter holds none
    have hold_map : s.judgments.map
        (fun j => if j.id == k then ⟨k, opt.id, sender, mention⟩ else j) =
        s.judgments := by
      have h1 : s.judgments.map
          (fun j => if j.id == k then (⟨k, opt.id, sender, mention⟩ : Judgment)
            else j) = s.judgments.map id :=
        List.map_congr_left (fun j hj => by
          rw [if_neg (by
            simp only [beq_iff_eq]
            have := hids j hj
            omega)]
          rfl)
      rw [h1, List.map_id]
    rw [hold_map, hold o ho]
    -- the seeded rows: the id-k row is the target row
    have hrow_uniq : ∀ j ∈ seedRows sender Mention.Bad s.next_id
        (get_vote_options s vote.id), j.id = k →
        j = ⟨k, opt.id, sender, Mention.Bad⟩ := by
      intro j hj hjk
      exact List.inj_on_of_nodup_map hSnodup hj hrow_mem hjk
    have hcong : ∀ j ∈ seedRows sender Mention.Bad s.next_id
        (get_vote_options s vote.id),
        ((fun j2 => (j2.voter == sender) && (j2.option_id == o.id))
          ((fun j2 => if j2.id == k then (⟨k, opt.id, sender, mention⟩ : Judgment)
            else j2) j)) = (j.option_id == o.id) := by
      intro j hj
      by_cases hjk : j.id = k
      · have hj_eq := hrow_uniq j hj hjk
        have hb : (j.id == k) = true := by simp [hjk]
        simp only [hb, if_true]
        rw [hj_eq]
        simp
      · have hb : (j.id == k) = false := by simp [hjk]
        simp only [hb, Bool.false_eq_true, if_false]
        rw [hSvoter j hj]
        simp
    rw [List.filter_map]
    simp only [Function.comp_def]
    rw [List.filter_congr hcong]
    obtain ⟨ko, hko, hfo⟩ := hfil_o o ho
    rw [hfo]
    simp only [List.map_cons, List.map_nil, List.nil_append]
    by_cases hoid : o.id = option_id
    · -- the target option: its seeded row is the id-k row and gets updated
      have ho_eq : (⟨ko, o.id, sender, Mention.Bad⟩ : Judgment) =
          ⟨k, opt.id, sender, Mention.Bad⟩ := by
        have hmem1 : (⟨ko, o.id, sender, Mention.Bad⟩ : Judgment) ∈
            seedRows sender Mention.Bad s.next_id (get_vote_options s vote.id) := by
          apply List.mem_of_mem_filter (p := fun j => j.option_id == o.id)
          rw [hfo]
          exact List.mem_cons_self _ _
        have hio : o.id = opt.id := by rw [hoid, hoptid]
        have hfil_at : (seedRows sender Mention.Bad s.next_id
            (get_vote_options s vote.id)).filter (fun j => j.option_id == o.id) =
            [⟨k, opt.id, sender, Mention.Bad⟩] := by
          rw [hio]
          exact hfilS
        rw [hfil_at] at hfo
        injection hfo with h1 h2
        exact h1.symm
      have hko_k : ko = k := by
        have h2 := congrArg (fun j : Judgment => j.id) ho_eq
        simpa using h2
      rw [if_pos (show ((⟨ko, o.id, sender, Mention.Bad⟩ : Judgment).id == k) = true by
        simp [hko_k])]
      simp only [List.map_cons, List.map_nil]
      rw [if_pos hoid]
    · -- a non-target option: its seeded row keeps the sentinel
      have hne_k : ko ≠ k := by
        intro hcon
        have hmem1 : (⟨ko, o.id, sender, Mention.Bad⟩ : Judgment) ∈
            seedRows sender Mention.Bad s.next_id (get_vote_options s vote.id) := by
          apply List.mem_of_mem_filter (p := fun j => j.option_id == o.id)
          rw [hfo]
          exact List.mem_cons_self _ _
        have := hrow_uniq _ hmem1 hcon
        have hfields : o.id = opt.id := by
          have h2 := congrArg (fun j => j.option_id) this
          simpa using h2
        exact hoid (by rw [hfields, hoptid])
      rw [if_neg (by simp [hne_k])]
      simp only [List.map_cons, List.map_nil]
      rw [if_neg hoid]

/-- Witness for claim C5: an unseeded voter casts `Good` on option 1 of a
two-option vote; afterwards they hold option 1 at `Good` and option 2 at
`Bad`. -/
theorem claim_C5_witness :
    (cast_judgment ⟨[⟨1, VotingSystem.MajorityJudgment⟩], [⟨1, 1⟩, ⟨2, 1⟩], [], [], 0⟩
        9 1 Mention.Good).1 = Except.ok () ∧
      ∀ o ∈ get_vote_options
          ⟨[⟨1, VotingSystem.MajorityJudgment⟩], [⟨1, 1⟩, ⟨2, 1⟩], [], [], 0⟩
          (⟨1, 1⟩ : VoteOption).vote_id,
        ((cast_judgment
              ⟨[⟨1, VotingSystem.MajorityJudgment⟩], [⟨1, 1⟩, ⟨2, 1⟩], [], [], 0⟩
              9 1 Mention.Good).2.judgments.filter
            (fun j => (j.voter == 9) && (j.option_id == o.id))).map
          (fun j => j.mention) =
          [if o.id = 1 then Mention.Good else Mention.Bad] :=
  claim_C5 ⟨[⟨1, VotingSystem.MajorityJudgment⟩], [⟨1, 1⟩, ⟨2, 1⟩], [], [], 0⟩
    9 1 Mention.Good ⟨1, 1⟩ ⟨1, VotingSystem.MajorityJudgment⟩
    rfl rfl rfl (by intro j hj; cases hj) (by intro j hj; cases hj) (by decide)

/-- Witness for claim C4: submitting to a non-existent vote on an empty
database errors out and leaves the state unchanged. -/
theorem claim_C4_witness :
    (∃ msg, (submit_complete_judgment_ballot ⟨[], [], [], [], 0⟩ 5 1 []).1 =
        Except.error msg) ∧
      (submit_complete_judgment_ballot ⟨[], [], [], [], 0⟩ 5 1 []).2 =
        (⟨[], [], [], [], 0⟩ : State) :=
  claim_C4 ⟨[], [], [], [], 0⟩ 5 1 [] (Or.inl (by decide))

end ZVote.Stdb

/-! ## Embedding of `server/src/approval.rs` (approval tallying engine) -/

namespace ZVote.ApprovalSrv

/-- The configured voting method of a vote. -/
inductive VotingSystem where
  | Approval
  | MajorityJudgment
deriving DecidableEq

/-- A `vote` row, restricted to the fields the approval engine reads. -/
structure Vote where
  id : Nat
  voting_system : VotingSystem
deriving DecidableEq

/-- A `vote_option` row with its incrementally maintained approval counter. -/
structure VoteOption where
  id : Nat
  vote_id : Nat
  approvals_count : Nat
deriving DecidableEq

/-- An `approval` (ballot) row. -/
structure Approval where
  vote_id : Nat
  option_id : Nat
  voter : Nat
  ts : Nat
deriving DecidableEq

/-- The database state visible to the approval reducers. -/
structure AState where
  votes : List Vote
  options : List VoteOption
  approvals : List Approval
deriving DecidableEq

/-- `find_vote_by_id` (primary-key lookup). -/
def find_vote_by_id (s : AState) (vote_id : Nat) : Option Vote :=
  s.votes.find? (fun v => v.id == vote_id)

/-- `find_vote_option_by_id` (primary-key lookup). -/
def find_vote_option_by_id (s : AState) (option_id : Nat) : Option VoteOption :=
  s.options.find? (fun o => o.id == option_id)

/-- `vote_option_vote_id`. -/
def vote_option_vote_id (o : VoteOption) : Nat := o.vote_id

/-- `vote_option_approvals_count`. -/
def vote_option_approvals_count (o : VoteOption) : Nat := o.approvals_count

/-- `set_vote_option_approvals_count`: update by primary key. -/
def set_vote_option_approvals_count (s : AState) (opt : VoteOption)
    (new_count : Nat) : AState :=
  { s with options := s.options.map (fun o =>
      if o.id == opt.id then { opt with approvals_count := new_count } else o) }

/-- The `by_vote_voter_option` index lookup. -/
def approval_rows (s : AState) (vote_id voter option_id : Nat) : List Approval :=
  s.approvals.filter
    (fun a => a.vote_id == vote_id && a.voter == voter && a.option_id == option_id)

/-- `approve` from `server/src/approval.rs`: validate, no-op when the row
already exists, else insert the ballot row and bump the counter with
`saturating_add`. -/
def approve (s : AState) (sender ts vote_id option_id : Nat) :
    Except String Unit × AState :=
  match find_vote_option_by_id s option_id with
  | none => (Except.error "Option not found", s)
  | some opt =>
    if vote_option_vote_id opt ≠ vote_id then
      (Except.error "Option does not belong to the specified vote", s)
    else
      match find_vote_by_id s vote_id with
      | none => (Except.error "Vote not found", s)
      | some vote =>
        if vote.voting_system ≠ VotingSystem.Approval then
          (Except.error "This vote does not use approval voting", s)
        else if (approval_rows s vote_id sender option_id).head?.isSome then
          (Except.ok (), s)
        else
          (Except.ok (), set_vote_option_approvals_count
            { s with approvals := s.approvals ++ [⟨vote_id, option_id, sender, ts⟩] }
            opt (satAdd (vote_option_approvals_count opt) 1))

/-- `HashSet::insert` over a duplicate-free list. -/
def hsInsert (acc : List Nat) (x : Nat) : List Nat :=
  if x ∈ acc then acc else acc ++ [x]

/-- The validation loop of `set_approvals` building the `desired` set. -/
def buildDesired (s : AState) (vote_id : Nat) :
    List Nat → List Nat → Except String (List Nat)
  | acc, [] => Except.ok acc
  | acc, oid :: rest =>
    match find_vote_option_by_id s oid with
    | some o =>
      if vote_option_vote_id o ≠ vote_id then
        Except.error "Option does not belong to vote"
      else buildDesired s vote_id (hsInsert acc oid) rest
    | none => Except.error "Option not found"

/-- The caller's current approved-option set for the vote (the
`by_vote_and_voter` scan inserting into a `HashSet`). -/
def currentOf (s : AState) (sender vote_id : Nat) : List Nat :=
  (s.approvals.filter (fun a => a.vote_id == vote_id && a.voter == sender)).foldl
    (fun acc a => hsInsert acc a.option_id) []

/-- `compute_approval_diffs` from `server/src/approval.rs`: plain set
differences. -/
def compute_approval_diffs (current desired : List Nat) : List Nat × List Nat :=
  (desired.filter (fun x => !(current.contains x)),
    current.filter (fun x => !(desired.contains x)))

/-- One removal iteration of `set_approvals`: delete the first matching
ballot row and decrement the option counter with `saturating_sub`. -/
def removeOne (s : AState) (sender vote_id oid : Nat) : AState :=
  match (approval_rows s vote_id sender oid).head? with
  | some a =>
    let s1 := { s with approvals := s.approvals.erase a }
    match find_vote_option_by_id s1 oid with
    | some opt =>
      set_vote_option_approvals_count s1 opt (vote_option_approvals_count opt - 1)
    | none => s1
  | none => s

/-- One addition iteration of `set_approvals`: insert the ballot row and
increment the option counter with `saturating_add`. -/
def addOne (s : AState) (sender ts vote_id oid : Nat) : AState :=
  let s1 := { s with approvals := s.approvals ++ [⟨vote_id, oid, sender, ts⟩] }
  match find_vote_option_by_id s1 oid with
  | some opt =>
    set_vote_option_approvals_count s1 opt (satAdd (vote_option_approvals_count opt) 1)
  | none => s1

/-- `set_approvals` from `server/src/approval.rs`: validate, build the
deduplicated desired set, check the 20-option ceiling against it, diff with
the current set, then apply all removals followed by all additions. -/
def set_approvals (s : AState) (sender ts vote_id : Nat) (option_ids : List Nat) :
    Except String Unit × AState :=
  match find_vote_by_id s vote_id with
  | none => (Except.error "Vote not found", s)
  | some vote =>
    if vote.voting_system ≠ VotingSystem.Approval then
      (Except.error "This vote does not use approval voting", s)
    else
      match buildDesired s vote_id [] option_ids with
      | Except.error e => (Except.error e, s)
      | Except.ok desired =>
        if 20 < desired.length then
          (Except.error "Cannot approve more than 20 options in a single vote", s)
        else
          let current := currentOf s sender vote_id
          let diffs := compute_approval_diffs current desired
          let s1 := diffs.2.foldl (fun st oid => removeOne st sender vote_id oid) s
          let s2 := diffs.1.foldl (fun st oid => addOne st sender ts vote_id oid) s1
          (Except.ok (), s2)

end ZVote.ApprovalSrv

namespace ZVote.ApprovalSrv

/-- An id-preserving map commutes with the primary-key `find?`. -/
theorem find?_map_preserve (l : List VoteOption) (g : VoteOption → VoteOption)
    (hg : ∀ o, (g o).id = o.id) (x : Nat) :
    (l.map g).find? (fun o => o.id == x) =
      (l.find? (fun o => o.id == x)).map g := by
  induction l with
  | nil => rfl
  | cons a rest ih =>
    simp only [List.map_cons, List.find?_cons]
    rw [hg a]
    by_cases ha : a.id = x
    · have hb : (a.id == x) = true := by simp [ha]
      rw [hb]
      rfl
    · have hb : (a.id == x) = false := by simp [ha]
      rw [hb]
      exact ih

/-- Claim C8: a successfully validated `approve` is idempotent: the second
call with the same voter, vote and option returns `ok` and leaves the state
(counter and approvals table) exactly as the first call left it. -/
theorem claim_C8 (s : AState) (sender ts ts2 vote_id option_id : Nat)
    (opt : VoteOption) (vote : Vote)
    (hopt : find_vote_option_by_id s option_id = some opt)
    (hbel : opt.vote_id = vote_id)
    (hvote : find_vote_by_id s vote_id = some vote)
    (hsys : vote.voting_system = VotingSystem.Approval) :
    (approve s sender ts vote_id option_id).1 = Except.ok () ∧
      approve (approve s sender ts vote_id option_id).2 sender ts2 vote_id option_id =
        (Except.ok (), (approve s sender ts vote_id option_id).2) := by
  have hopt2 : List.find? (fun o => o.id == option_id) s.options = some opt := hopt
  have hoptid : opt.id = option_id := by
    have h := @List.find?_some _ (fun o => o.id == option_id) opt s.options hopt2
    simpa using h
  by_cases hap : (approval_rows s vote_id sender option_id).head?.isSome = true
  · have h1 : approve s sender ts vote_id option_id = (Except.ok (), s) := by
      simp only [approve, hopt, hvote]
      rw [if_neg (show ¬(vote_option_vote_id opt ≠ vote_id) from fun hne => hne hbel)]
      rw [if_neg (show ¬(vote.voting_system ≠ VotingSystem.Approval) from
        fun hne => hne hsys)]
      rw [if_pos hap]
    have h2 : approve s sender ts2 vote_id option_id = (Except.ok (), s) := by
      simp only [approve, hopt, hvote]
      rw [if_neg (show ¬(vote_option_vote_id opt ≠ vote_id) from fun hne => hne hbel)]
      rw [if_neg (show ¬(vote.voting_system ≠ VotingSystem.Approval) from
        fun hne => hne hsys)]
      rw [if_pos hap]
    rw [h1]
    exact ⟨rfl, h2⟩
  · have h1 : approve s sender ts vote_id option_id =
        (Except.ok (), set_vote_option_approvals_count
          { s with approvals := s.approvals ++ [⟨vote_id, option_id, sender, ts⟩] }
          opt (satAdd (vote_option_approvals_count opt) 1)) := by
      simp only [approve, hopt, hvote]
      rw [if_neg (show ¬(vote_option_vote_id opt ≠ vote_id) from fun hne => hne hbel)]
      rw [if_neg (show ¬(vote.voting_system ≠ VotingSystem.Approval) from
        fun hne => hne hsys)]
      rw [if_neg hap]
    rw [h1]
    refine ⟨rfl, ?_⟩
    set s1 := set_vote_option_approvals_count
      { s with approvals := s.approvals ++ [⟨vote_id, option_id, sender, ts⟩] }
      opt (satAdd (vote_option_approvals_count opt) 1) with hs1
    have hg : ∀ o : VoteOption,
        ((fun o => if o.id == opt.id then
          { opt with approvals_count := satAdd (vote_option_approvals_count opt) 1 }
          else o) o).id = o.id := by
      intro o
      show ((if o.id == opt.id then
        { opt with approvals_count := satAdd (vote_option_approvals_count opt) 1 }
        else o) : VoteOption).id = o.id
      by_cases ho : o.id = opt.id
      · rw [if_pos (by simp [ho])]
        exact ho.symm
      · rw [if_neg (by simp [ho])]
    have hfind1 : find_vote_option_by_id s1 option_id =
        some { opt with approvals_count := satAdd (vote_option_approvals_count opt) 1 } := by
      have hmap := find?_map_preserve s.options
        (fun o => if o.id == opt.id then
          { opt with approvals_count := satAdd (vote_option_approvals_count opt) 1 }
          else o)
        hg option_id
      rw [hopt2] at hmap
      have hdef : find_vote_option_by_id s1 option_id =
          (s.options.map (fun o => if o.id == opt.id then
            { opt with approvals_count := satAdd (vote_option_approvals_count opt) 1 }
            else o)).find? (fun o => o.id == option_id) := rfl
      rw [hdef, hmap]
      simp only [Option.map_some']
      rw [if_pos (by simp)]
    have hfind2 : find_vote_by_id s1 vote_id = some vote := hvote
    have hrow : (approval_rows s1 vote_id sender option_id).head?.isSome = true := by
      show ((s.approvals ++ [(⟨vote_id, option_id, sender, ts⟩ : Approval)]).filter
        (fun a => a.vote_id == vote_id && a.voter == sender &&
          a.option_id == option_id)).head?.isSome = true
      rw [List.filter_append]
      rcases hfl : s.approvals.filter
          (fun a => a.vote_id == vote_id && a.voter == sender &&
            a.option_id == option_id) with _ | ⟨a, rest⟩
      · simp
      · simp
    simp only [approve, hfind1, hfind2]
    rw [if_neg (show ¬(vote_option_vote_id
        { opt with approvals_count := satAdd (vote_option_approvals_count opt) 1 } ≠
        vote_id) from fun hne => hne hbel)]
    rw [if_neg (show ¬(vote.voting_system ≠ VotingSystem.Approval) from
      fun hne => hne hsys)]
    rw [if_pos hrow]

/-- When every entry names a valid option of the vote, the validation loop
succeeds and deduplicates the entries into the desired set. -/
theorem buildDesired_ok (s : AState) (vote_id : Nat) (l : List Nat) :
    ∀ acc : List Nat,
      (∀ oid ∈ l, (find_vote_option_by_id s oid).any
        (fun o => o.vote_id == vote_id) = true) →
      buildDesired s vote_id acc l = Except.ok (l.foldl hsInsert acc) := by
  induction l with
  | nil => intro acc _; rfl
  | cons oid rest ih =>
    intro acc hvalid
    have hv := hvalid oid (List.mem_cons_self oid rest)
    rcases hfind : find_vote_option_by_id s oid with _ | o
    · rw [hfind] at hv
      cases hv
    · rw [hfind] at hv
      have hbel : o.vote_id = vote_id := by simpa using hv
      simp only [buildDesired, hfind]
      rw [if_neg (show ¬(vote_option_vote_id o ≠ vote_id) from fun hne => hne hbel)]
      simp only [List.foldl_cons]
      exact ih (hsInsert acc oid) (fun x hx => hvalid x (List.mem_cons_of_mem oid hx))

/-- Membership in the deduplicating fold. -/
theorem hsInsert_fold_mem (l : List Nat) :
    ∀ (acc : List Nat) (x : Nat), x ∈ l.foldl hsInsert acc ↔ x ∈ acc ∨ x ∈ l := by
  induction l with
  | nil => intro acc x; simp
  | cons a rest ih =>
    intro acc x
    simp only [List.foldl_cons]
    rw [ih (hsInsert acc a) x]
    unfold hsInsert
    by_cases ha : a ∈ acc
    · rw [if_pos ha]
      constructor
      · rintro (h | h)
        · exact Or.inl h
        · exact Or.inr (List.mem_cons_of_mem a h)
      · rintro (h | h)
        · exact Or.inl h
        · rcases List.mem_cons.mp h with rfl | h2
          · exact Or.inl ha
          · exact Or.inr h2
    · rw [if_neg ha]
      simp only [List.mem_append, List.mem_singleton, List.mem_cons]
      tauto

/-- The deduplicating fold keeps the accumulator duplicate-free. -/
theorem hsInsert_fold_nodup (l : List Nat) :
    ∀ acc : List Nat, acc.Nodup → (l.foldl hsInsert acc).Nodup := by
  induction l with
  | nil => intro acc h; exact h
  | cons a rest ih =>
    intro acc h
    simp only [List.foldl_cons]
    apply ih
    unfold hsInsert
    by_cases ha : a ∈ acc
    · rw [if_pos ha]; exact h
    · rw [if_neg ha]
      simp [List.nodup_append, h, ha]

/-- The deduplicated length is the number of distinct entries. -/
theorem hsInsert_fold_length (l : List Nat) :
    (l.foldl hsInsert []).length = l.toFinset.card := by
  have hnd : (l.foldl hsInsert []).Nodup := hsInsert_fold_nodup l [] List.nodup_nil
  have hset : (l.foldl hsInsert []).toFinset = l.toFinset := by
    apply Finset.ext
    intro x
    simp only [List.mem_toFinset]
    rw [hsInsert_fold_mem l [] x]
    simp
  rw [← hset, List.toFinset_card_of_nodup hnd]

/-- Claim C10: `set_approvals` never rejects duplicate option ids — the
entry list is deduplicated into a set before the ceiling check, which counts
distinct options only; a call whose entries are all valid options of the
vote succeeds even with more than 20 entries, as long as at most 20 are
distinct. -/
theorem claim_C10 (s : AState) (sender ts vote_id : Nat) (option_ids : List Nat)
    (vote : Vote)
    (hvote : find_vote_by_id s vote_id = some vote)
    (hsys : vote.voting_system = VotingSystem.Approval)
    (hvalid : ∀ oid ∈ option_ids, (find_vote_option_by_id s oid).any
      (fun o => o.vote_id == vote_id) = true)
    (hmany : 20 < option_ids.length)
    (hdistinct : option_ids.toFinset.card ≤ 20) :
    (set_approvals s sender ts vote_id option_ids).1 = Except.ok () := by
  simp only [set_approvals, hvote]
  rw [if_neg (show ¬(vote.voting_system ≠ VotingSystem.Approval) from
    fun hne => hne hsys)]
  simp only [buildDesired_ok s vote_id option_ids [] hvalid]
  rw [if_neg (show ¬(20 < (option_ids.foldl hsInsert []).length) from by
    rw [hsInsert_fold_length]
    omega)]

/-- Witness for claim C10: 21 copies of the single valid option id are
accepted (1 distinct id), although the raw entry list exceeds the ceiling. -/
theorem claim_C10_witness :
    (set_approvals ⟨[⟨1, VotingSystem.Approval⟩], [⟨1, 1, 0⟩], []⟩ 9 0 1
        (List.replicate 21 1)).1 = Except.ok () :=
  claim_C10 ⟨[⟨1, VotingSystem.Approval⟩], [⟨1, 1, 0⟩], []⟩ 9 0 1
    (List.replicate 21 1) ⟨1, VotingSystem.Approval⟩ rfl rfl
    (by decide) (by decide) (by decide)

/-- The row predicate of the `by_vote_voter_option` index. -/
def isRow (vote_id sender x : Nat) (a : Approval) : Bool :=
  a.vote_id == vote_id && a.voter == sender && a.option_id == x

/-- `approval_rows` is the filter by `isRow`. -/
theorem approval_rows_eq (s : AState) (vote_id sender x : Nat) :
    approval_rows s vote_id sender x = s.approvals.filter (isRow vote_id sender x) :=
  rfl

/-- Erasing the unique row matching a predicate is filtering it out. -/
theorem erase_eq_filter_not (l : List Approval) (a : Approval) (p : Approval → Bool)
    (h : l.filter p = [a]) : l.erase a = l.filter (fun r => !(p r)) := by
  induction l with
  | nil => cases h
  | cons b rest ih =>
    rw [List.filter_cons] at h
    by_cases hb : p b
    · rw [if_pos hb] at h
      injection h with h1 h2
      subst h1
      have hrest : ∀ r ∈ rest, p r = false := by
        intro r hr
        by_contra hcon
        have : r ∈ rest.filter p := List.mem_filter.mpr ⟨hr, by
          cases hpr : p r
          · exact absurd hpr hcon
          · rfl⟩
        rw [h2] at this
        cases this
      rw [List.filter_cons]
      rw [if_neg (by rw [hb]; simp)]
      rw [List.erase_cons_head]
      symm
      rw [List.filter_eq_self]
      intro r hr
      rw [hrest r hr]
      rfl
    · rw [if_neg hb] at h
      have hba : b ≠ a := by
        intro hcon
        have hpa : p a = true := by
          have : a ∈ rest.filter p := by rw [h]; exact List.mem_cons_self a []
          exact (List.mem_filter.mp this).2
        rw [← hcon] at hpa
        exact hb hpa
      rw [List.erase_cons_tail (by simp [hba])]
      rw [List.filter_cons]
      rw [if_pos (by
        cases hpb : p b
        · rfl
        · exact absurd hpb hb)]
      rw [ih h]

/-- Membership in the caller's current approved-option set is existence of a
matching ballot row. -/
theorem currentOf_spec (s : AState) (sender vote_id x : Nat) :
    x ∈ currentOf s sender vote_id ↔
      ∃ a ∈ s.approvals, a.vote_id = vote_id ∧ a.voter = sender ∧ a.option_id = x := by
  unfold currentOf
  rw [← List.foldl_map (fun a : Approval => a.option_id) hsInsert]
  rw [hsInsert_fold_mem]
  simp only [List.mem_map, List.mem_filter, Bool.and_eq_true, beq_iff_eq]
  constructor
  · rintro (h | ⟨a, ⟨ha, hv, hu⟩, rfl⟩)
    · cases h
    · exact ⟨a, ha, hv, hu, rfl⟩
  · rintro ⟨a, ha, hv, hu, hx⟩
    exact Or.inr ⟨a, ⟨ha, hv, hu⟩, hx⟩

/-- The current approved-option set is duplicate-free. -/
theorem currentOf_nodup (s : AState) (sender vote_id : Nat) :
    (currentOf s sender vote_id).Nodup := by
  unfold currentOf
  rw [← List.foldl_map (fun a : Approval => a.option_id) hsInsert]
  exact hsInsert_fold_nodup _ [] List.nodup_nil

/-- Under unique option ids, the primary-key lookup of a member is itself. -/
theorem find?_self_of_nodup (l : List VoteOption)
    (hnd : (l.map (fun o => o.id)).Nodup) (o : VoteOption) (ho : o ∈ l) :
    l.find? (fun o2 => o2.id == o.id) = some o := by
  induction l with
  | nil => cases ho
  | cons a rest ih =>
    simp only [List.map_cons, List.nodup_cons] at hnd
    rw [List.find?_cons]
    by_cases ha : a.id = o.id
    · have hao : a = o := by
        rcases List.mem_cons.mp ho with rfl | ho2
        · rfl
        · exact absurd (List.mem_map.mpr ⟨o, ho2, ha.symm⟩) hnd.1
      rw [show (a.id == o.id) = true by simp [ha]]
      rw [hao]
    · rw [show (a.id == o.id) = false by simp [ha]]
      rcases List.mem_cons.mp ho with rfl | ho2
      · exact absurd rfl ha
      · exact ih hnd.2 ho2

/-- Splitting a filtered length along a second predicate. -/
theorem length_filter_split (l : List Approval) (p q : Approval → Bool) :
    (l.filter p).length =
      (l.filter (fun r => p r && q r)).length +
        (l.filter (fun r => p r && !(q r))).length := by
  induction l with
  | nil => rfl
  | cons a rest ih =>
    simp only [List.filter_cons]
    cases hp : p a <;> cases hq : q a <;>
      simp [hp, hq, List.length_cons] <;> omega

/-- An id-preserving rewrite of the option rows leaves the id column
unchanged. -/
theorem map_options_ids (l : List VoteOption) (g : VoteOption → VoteOption)
    (hg : ∀ o, (g o).id = o.id) :
    (l.map g).map (fun o => o.id) = l.map (fun o => o.id) := by
  rw [List.map_map]
  exact List.map_congr_left (fun o _ => hg o)

/-- Filtering a duplicate-free list for one value yields that value at most
once. -/
theorem filter_beq_of_nodup (l : List Nat) (hnd : l.Nodup) (x : Nat) :
    l.filter (fun y => y == x) = if x ∈ l then [x] else [] := by
  induction l with
  | nil => simp
  | cons a rest ih =>
    rw [List.nodup_cons] at hnd
    rw [List.filter_cons]
    by_cases ha : a = x
    · subst ha
      rw [if_pos (by simp)]
      have hz : rest.filter (fun y => y == a) = [] := by
        rw [List.filter_eq_nil_iff]
        intro b hb
        simp only [beq_iff_eq]
        intro hba
        exact hnd.1 (hba ▸ hb)
      rw [hz, if_pos (List.mem_cons_self a rest)]
    · rw [if_neg (by simp [ha])]
      rw [ih hnd.2]
      by_cases hx : x ∈ rest
      · rw [if_pos hx, if_pos (List.mem_cons_of_mem a hx)]
      · rw [if_neg hx, if_neg (fun hc =>
          (List.mem_cons.mp hc).elim (fun h => ha h.symm) hx)]

/-- The removal loop of `set_approvals`: under unique ids and a consistent
counter cache, it deletes exactly the caller's ballot rows for the listed
options and decrements each listed option's counter by one. -/
theorem removeFold_spec (sender vote_id : Nat) (rs : List Nat) : ∀ s : AState,
    rs.Nodup →
    (∀ x ∈ rs, (approval_rows s vote_id sender x).length = 1) →
    (s.options.map (fun o => o.id)).Nodup →
    (∀ o ∈ s.options, o.approvals_count =
      (s.approvals.filter (fun a => a.option_id == o.id)).length) →
    (rs.foldl (fun st oid => removeOne st sender vote_id oid) s).votes = s.votes ∧
    (rs.foldl (fun st oid => removeOne st sender vote_id oid) s).approvals =
      s.approvals.filter (fun r =>
        !(r.vote_id == vote_id && r.voter == sender && rs.contains r.option_id)) ∧
    (rs.foldl (fun st oid => removeOne st sender vote_id oid) s).options =
      s.options.map (fun o => if o.id ∈ rs then
        { o with approvals_count := o.approvals_count - 1 } else o) := by
  induction rs with
  | nil =>
    intro s _ _ _ _
    refine ⟨rfl, ?_, ?_⟩ <;> simp
  | cons x rest ih =>
    intro s hnd hrows hndopt hcache
    rw [List.nodup_cons] at hnd
    have hone := hrows x (List.mem_cons_self x rest)
    rcases List.length_eq_one.mp hone with ⟨a, ha⟩
    have ha2 : s.approvals.filter
        (fun r => r.vote_id == vote_id && r.voter == sender && r.option_id == x) =
          [a] := ha
    have hamem : a ∈ s.approvals.filter
        (fun r => r.vote_id == vote_id && r.voter == sender && r.option_id == x) := by
      rw [ha2]
      exact List.mem_cons_self a []
    have hafield := List.mem_filter.mp hamem
    have hax : a.option_id = x := by
      have := hafield.2
      simp only [Bool.and_eq_true, beq_iff_eq] at this
      exact this.2
    have hha : (approval_rows s vote_id sender x).head? = some a := by
      rw [ha]
      rfl
    have herase : s.approvals.erase a = s.approvals.filter
        (fun r => !(r.vote_id == vote_id && r.voter == sender && r.option_id == x)) :=
      erase_eq_filter_not s.approvals a _ ha2
    obtain ⟨htv, hta, hto⟩ :
        (removeOne s sender vote_id x).votes = s.votes ∧
        (removeOne s sender vote_id x).approvals = s.approvals.filter
          (fun r => !(r.vote_id == vote_id && r.voter == sender && r.option_id == x)) ∧
        (removeOne s sender vote_id x).options = s.options.map
          (fun o => if o.id = x then
            { o with approvals_count := o.approvals_count - 1 } else o) := by
      rcases hfind : find_vote_option_by_id s x with _ | opt
      · have hnone : ∀ o ∈ s.options, o.id ≠ x := by
          intro o ho hcon
          have hp := List.find?_eq_none.mp hfind o ho
          exact hp (by simp [hcon])
        have ht : removeOne s sender vote_id x =
            { s with approvals := s.approvals.erase a } := by
          unfold removeOne
          rw [hha]
          show (match find_vote_option_by_id
              { s with approvals := s.approvals.erase a } x with
            | some opt => set_vote_option_approvals_count
                { s with approvals := s.approvals.erase a } opt
                (vote_option_approvals_count opt - 1)
            | none => { s with approvals := s.approvals.erase a }) =
            { s with approvals := s.approvals.erase a }
          rw [show find_vote_option_by_id
            { s with approvals := s.approvals.erase a } x = none from hfind]
        rw [ht]
        refine ⟨rfl, herase, ?_⟩
        symm
        have hpt : ∀ o ∈ s.options, (if o.id = x then
            { o with approvals_count := o.approvals_count - 1 } else o) = o :=
          fun o ho => if_neg (hnone o ho)
        rw [List.map_congr_left hpt, List.map_id']
      · have hoptx : opt.id = x := by
          have := List.find?_some hfind
          simpa using this
        have hoptmem : opt ∈ s.options := List.mem_of_find?_eq_some hfind
        have ht : removeOne s sender vote_id x =
            { s with approvals := s.approvals.erase a,
                     options := s.options.map (fun o =>
                       if o.id == opt.id then
                         { opt with approvals_count := opt.approvals_count - 1 }
                       else o) } := by
          unfold removeOne
          rw [hha]
          show (match find_vote_option_by_id
              { s with approvals := s.approvals.erase a } x with
            | some opt => set_vote_option_approvals_count
                { s with approvals := s.approvals.erase a } opt
                (vote_option_approvals_count opt - 1)
            | none => { s with approvals := s.approvals.erase a }) = _
          rw [show find_vote_option_by_id
            { s with approvals := s.approvals.erase a } x = some opt from hfind]
          rfl
        rw [ht]
        refine ⟨rfl, herase, ?_⟩
        apply List.map_congr_left
        intro o ho
        by_cases hx : o.id = x
        · have hoo : o = opt := by
            have h1 : List.find? (fun o2 => o2.id == o.id) s.options = some o :=
              find?_self_of_nodup s.options hndopt o ho
            have h2 : List.find? (fun o2 => o2.id == o.id) s.options = some opt := by
              have : find_vote_option_by_id s o.id = some opt := by rw [hx]; exact hfind
              exact this
            rw [h1] at h2
            injection h2
          rw [if_pos (show (o.id == opt.id) = true by simp [hoo]), if_pos hx]
          rw [← hoo]
        · rw [if_neg (show ¬(o.id == opt.id) = true by simp [hoptx, hx]), if_neg hx]
    have hgid : ∀ o : VoteOption, ((fun o => if o.id = x then
        { o with approvals_count := o.approvals_count - 1 } else o) o).id = o.id := by
      intro o
      show (if o.id = x then
        { o with approvals_count := o.approvals_count - 1 } else o).id = o.id
      by_cases h : o.id = x
      · rw [if_pos h]
      · rw [if_neg h]
    have hndt : ((removeOne s sender vote_id x).options.map (fun o => o.id)).Nodup := by
      rw [hto, map_options_ids _ _ hgid]
      exact hndopt
    have hrowst : ∀ y ∈ rest,
        (approval_rows (removeOne s sender vote_id x) vote_id sender y).length = 1 := by
      intro y hy
      have hyx : y ≠ x := fun hcon => hnd.1 (hcon ▸ hy)
      have heq : approval_rows (removeOne s sender vote_id x) vote_id sender y =
          approval_rows s vote_id sender y := by
        show (removeOne s sender vote_id x).approvals.filter
            (fun r => r.vote_id == vote_id && r.voter == sender && r.option_id == y) =
          s.approvals.filter
            (fun r => r.vote_id == vote_id && r.voter == sender && r.option_id == y)
        rw [hta, List.filter_filter]
        apply List.filter_congr
        intro r _
        cases hpy : (r.vote_id == vote_id && r.voter == sender && r.option_id == y)
        · simp
        · have hry : r.option_id = y := by
            simp only [Bool.and_eq_true, beq_iff_eq] at hpy
            exact hpy.2
          have hrx : (r.option_id == x) = false := by
            simp [hry, hyx]
          simp [hrx]
      rw [heq]
      exact hrows y (List.mem_cons_of_mem x hy)
    have hcachet : ∀ o ∈ (removeOne s sender vote_id x).options, o.approvals_count =
        ((removeOne s sender vote_id x).approvals.filter
          (fun r => r.option_id == o.id)).length := by
      intro o ho
      rw [hto] at ho
      rcases List.mem_map.mp ho with ⟨o2, ho2, rfl⟩
      by_cases hx : o2.id = x
      · rw [if_pos hx]
        show o2.approvals_count - 1 = ((removeOne s sender vote_id x).approvals.filter
          (fun r => r.option_id == o2.id)).length
        rw [hta, List.filter_filter]
        have hsplit := length_filter_split s.approvals (fun r => r.option_id == o2.id)
          (fun r => r.vote_id == vote_id && r.voter == sender && r.option_id == x)
        have h1 : s.approvals.filter (fun r => (r.option_id == o2.id) &&
            (r.vote_id == vote_id && r.voter == sender && r.option_id == x)) =
            s.approvals.filter
              (fun r => r.vote_id == vote_id && r.voter == sender && r.option_id == x) := by
          apply List.filter_congr
          intro r _
          cases hpr : (r.vote_id == vote_id && r.voter == sender && r.option_id == x)
          · simp
          · have hrx : r.option_id = x := by
              simp only [Bool.and_eq_true, beq_iff_eq] at hpr
              exact hpr.2
            have : (r.option_id == o2.id) = true := by simp [hrx, hx]
            simp [this]
        rw [h1, ha2] at hsplit
        have hco := hcache o2 ho2
        simp only [List.length_cons, List.length_nil] at hsplit
        omega
      · rw [if_neg hx]
        show o2.approvals_count = ((removeOne s sender vote_id x).approvals.filter
          (fun r => r.option_id == o2.id)).length
        rw [hta, List.filter_filter]
        have h1 : s.approvals.filter (fun r => (r.option_id == o2.id) &&
            !(r.vote_id == vote_id && r.voter == sender && r.option_id == x)) =
            s.approvals.filter (fun r => r.option_id == o2.id) := by
          apply List.filter_congr
          intro r _
          cases hpr : (r.option_id == o2.id)
          · simp
          · have hro : r.option_id = o2.id := by simpa using hpr
            have : (r.option_id == x) = false := by simp [hro, hx]
            simp [this]
        rw [h1]
        exact hcache o2 ho2
    have IH := ih (removeOne s sender vote_id x) hnd.2 hrowst hndt hcachet
    refine ⟨?_, ?_, ?_⟩
    · simp only [List.foldl_cons]
      exact IH.1.trans htv
    · simp only [List.foldl_cons]
      rw [IH.2.1, hta, List.filter_filter]
      apply List.filter_congr
      intro r _
      rw [List.contains_cons]
      cases h1 : (r.vote_id == vote_id) <;> cases h2 : (r.voter == sender) <;>
        cases h3 : rest.contains r.option_id <;> cases h4 : (r.option_id == x) <;>
          simp [h1, h2, h3, h4]
    · simp only [List.foldl_cons]
      rw [IH.2.2, hto, List.map_map]
      apply List.map_congr_left
      intro o ho
      rw [Function.comp_apply]
      by_cases h1 : o.id = x
      · rw [if_pos h1]
        have hnr : ({ o with approvals_count := o.approvals_count - 1 } :
            VoteOption).id ∉ rest := by
          show o.id ∉ rest
          rw [h1]
          exact hnd.1
        rw [if_neg hnr]
        rw [if_pos (show o.id ∈ x :: rest from by
          rw [h1]; exact List.mem_cons_self x rest)]
      · rw [if_neg h1]
        by_cases h2 : o.id ∈ rest
        · rw [if_pos h2, if_pos (List.mem_cons_of_mem x h2)]
        · rw [if_neg h2, if_neg (fun hc => (List.mem_cons.mp hc).elim h1 h2)]

/-- The addition loop of `set_approvals`: under unique ids and counters
below the `u32` cap, it appends one ballot row per listed option and
increments each listed option's counter by one. -/
theorem addFold_spec (sender ts vote_id : Nat) (xs : List Nat) : ∀ s : AState,
    xs.Nodup →
    (s.options.map (fun o => o.id)).Nodup →
    (∀ o ∈ s.options, o.id ∈ xs → o.approvals_count < U32MAX) →
    (xs.foldl (fun st oid => addOne st sender ts vote_id oid) s).votes = s.votes ∧
    (xs.foldl (fun st oid => addOne st sender ts vote_id oid) s).approvals =
      s.approvals ++ xs.map (fun oid => (⟨vote_id, oid, sender, ts⟩ : Approval)) ∧
    (xs.foldl (fun st oid => addOne st sender ts vote_id oid) s).options =
      s.options.map (fun o => if o.id ∈ xs then
        { o with approvals_count := o.approvals_count + 1 } else o) := by
  induction xs with
  | nil =>
    intro s _ _ _
    refine ⟨rfl, by simp, ?_⟩
    simp only [List.foldl_nil]
    symm
    have hpt : ∀ o ∈ s.options, (if o.id ∈ ([] : List Nat) then
        { o with approvals_count := o.approvals_count + 1 } else o) = o :=
      fun o _ => if_neg (List.not_mem_nil o.id)
    rw [List.map_congr_left hpt, List.map_id']
  | cons x rest ih =>
    intro s hnd hndopt hbound
    rw [List.nodup_cons] at hnd
    obtain ⟨htv, hta, hto⟩ :
        (addOne s sender ts vote_id x).votes = s.votes ∧
        (addOne s sender ts vote_id x).approvals =
          s.approvals ++ [(⟨vote_id, x, sender, ts⟩ : Approval)] ∧
        (addOne s sender ts vote_id x).options = s.options.map
          (fun o => if o.id = x then
            { o with approvals_count := o.approvals_count + 1 } else o) := by
      rcases hfind : find_vote_option_by_id s x with _ | opt
      · have hnone : ∀ o ∈ s.options, o.id ≠ x := by
          intro o ho hcon
          have hp := List.find?_eq_none.mp hfind o ho
          exact hp (by simp [hcon])
        have ht : addOne s sender ts vote_id x =
            { s with approvals :=
                s.approvals ++ [(⟨vote_id, x, sender, ts⟩ : Approval)] } := by
          unfold addOne
          show (match find_vote_option_by_id
              { s with approvals :=
                s.approvals ++ [(⟨vote_id, x, sender, ts⟩ : Approval)] } x with
            | some opt => set_vote_option_approvals_count
                { s with approvals :=
                  s.approvals ++ [(⟨vote_id, x, sender, ts⟩ : Approval)] } opt
                (satAdd (vote_option_approvals_count opt) 1)
            | none => { s with approvals :=
                s.approvals ++ [(⟨vote_id, x, sender, ts⟩ : Approval)] }) = _
          rw [show find_vote_option_by_id
            { s with approvals :=
              s.approvals ++ [(⟨vote_id, x, sender, ts⟩ : Approval)] } x
            = none from hfind]
        rw [ht]
        refine ⟨rfl, rfl, ?_⟩
        symm
        have hpt : ∀ o ∈ s.options, (if o.id = x then
            { o with approvals_count := o.approvals_count + 1 } else o) = o :=
          fun o ho => if_neg (hnone o ho)
        rw [List.map_congr_left hpt, List.map_id']
      · have hoptx : opt.id = x := by
          have := List.find?_some hfind
          simpa using this
        have hoptmem : opt ∈ s.options := List.mem_of_find?_eq_some hfind
        have hsat : satAdd opt.approvals_count 1 = opt.approvals_count + 1 := by
          have hb := hbound opt hoptmem (hoptx ▸ List.mem_cons_self x rest)
          unfold satAdd U32MAX at hb ⊢
          omega
        have ht : addOne s sender ts vote_id x =
            { s with
                approvals := s.approvals ++ [(⟨vote_id, x, sender, ts⟩ : Approval)],
                options := s.options.map (fun o =>
                  if o.id == opt.id then
                    { opt with approvals_count := satAdd opt.approvals_count 1 }
                  else o) } := by
          unfold addOne
          show (match find_vote_option_by_id
              { s with approvals :=
                s.approvals ++ [(⟨vote_id, x, sender, ts⟩ : Approval)] } x with
            | some opt => set_vote_option_approvals_count
                { s with approvals :=
                  s.approvals ++ [(⟨vote_id, x, sender, ts⟩ : Approval)] } opt
                (satAdd (vote_option_approvals_count opt) 1)
            | none => { s with approvals :=
                s.approvals ++ [(⟨vote_id, x, sender, ts⟩ : Approval)] }) = _
          rw [show find_vote_option_by_id
            { s with approvals :=
              s.approvals ++ [(⟨vote_id, x, sender, ts⟩ : Approval)] } x
            = some opt from hfind]
          rfl
        rw [ht]
        refine ⟨rfl, rfl, ?_⟩
        apply List.map_congr_left
        intro o ho
        by_cases hx : o.id = x
        · have hoo : o = opt := by
            have hf1 : List.find? (fun o2 => o2.id == o.id) s.options = some o :=
              find?_self_of_nodup s.options hndopt o ho
            have hf2 : List.find? (fun o2 => o2.id == o.id) s.options = some opt := by
              have : find_vote_option_by_id s o.id = some opt := by rw [hx]; exact hfind
              exact this
            rw [hf1] at hf2
            injection hf2
          rw [if_pos (show (o.id == opt.id) = true by simp [hoo]), if_pos hx]
          rw [← hoo]
          rw [show satAdd o.approvals_count 1 = o.approvals_count + 1 from by
            rw [hoo]; exact hsat]
        · rw [if_neg (show ¬(o.id == opt.id) = true by simp [hoptx, hx]), if_neg hx]
    have hgid : ∀ o : VoteOption, ((fun o => if o.id = x then
        { o with approvals_count := o.approvals_count + 1 } else o) o).id = o.id := by
      intro o
      show (if o.id = x then
        { o with approvals_count := o.approvals_count + 1 } else o).id = o.id
      by_cases h : o.id = x
      · rw [if_pos h]
      · rw [if_neg h]
    have hndt : ((addOne s sender ts vote_id x).options.map (fun o => o.id)).Nodup := by
      rw [hto, map_options_ids _ _ hgid]
      exact hndopt
    have hboundt : ∀ o ∈ (addOne s sender ts vote_id x).options,
        o.id ∈ rest → o.approvals_count < U32MAX := by
      intro o ho hor
      rw [hto] at ho
      rcases List.mem_map.mp ho with ⟨o2, ho2, rfl⟩
      by_cases hx : o2.id = x
      · exfalso
        rw [if_pos hx] at hor
        have hor2 : o2.id ∈ rest := hor
        exact hnd.1 (hx ▸ hor2)
      · rw [if_neg hx] at hor ⊢
        exact hbound o2 ho2 (List.mem_cons_of_mem x hor)
    have IH := ih (addOne s sender ts vote_id x) hnd.2 hndt hboundt
    refine ⟨?_, ?_, ?_⟩
    · simp only [List.foldl_cons]
      exact IH.1.trans htv
    · simp only [List.foldl_cons]
      rw [IH.2.1, hta, List.append_assoc]
      rfl
    · simp only [List.foldl_cons]
      rw [IH.2.2, hto, List.map_map]
      apply List.map_congr_left
      intro o ho
      rw [Function.comp_apply]
      by_cases h1 : o.id = x
      · rw [if_pos h1]
        have hnr : ({ o with approvals_count := o.approvals_count + 1 } :
            VoteOption).id ∉ rest := by
          show o.id ∉ rest
          rw [h1]
          exact hnd.1
        rw [if_neg hnr]
        rw [if_pos (show o.id ∈ x :: rest from by
          rw [h1]; exact List.mem_cons_self x rest)]
      · rw [if_neg h1]
        by_cases h2 : o.id ∈ rest
        · rw [if_pos h2, if_pos (List.mem_cons_of_mem x h2)]
        · rw [if_neg h2, if_neg (fun hc => (List.mem_cons.mp hc).elim h1 h2)]

/-- The `to_remove` diff of a `set_approvals` call: current minus desired. -/
def toRemove (s : AState) (sender vote_id : Nat) (option_ids : List Nat) : List Nat :=
  (currentOf s sender vote_id).filter
    (fun y => !((option_ids.foldl hsInsert []).contains y))

/-- The `to_add` diff of a `set_approvals` call: desired minus current. -/
def toAdd (s : AState) (sender vote_id : Nat) (option_ids : List Nat) : List Nat :=
  (option_ids.foldl hsInsert []).filter
    (fun y => !((currentOf s sender vote_id).contains y))

/-- Membership in `toRemove` is: currently approved but not requested. -/
theorem toRemove_mem (s : AState) (sender vote_id : Nat) (option_ids : List Nat)
    (x : Nat) : x ∈ toRemove s sender vote_id option_ids ↔
      x ∈ currentOf s sender vote_id ∧ x ∉ option_ids := by
  unfold toRemove
  rw [List.mem_filter]
  constructor
  · rintro ⟨h1, h2⟩
    refine ⟨h1, fun hc => ?_⟩
    have hm : x ∈ option_ids.foldl hsInsert [] := by
      rw [hsInsert_fold_mem]
      exact Or.inr hc
    have hb : (option_ids.foldl hsInsert []).contains x = true := by simpa using hm
    rw [hb] at h2
    cases h2
  · rintro ⟨h1, h2⟩
    refine ⟨h1, ?_⟩
    have hm : x ∉ option_ids.foldl hsInsert [] := by
      rw [hsInsert_fold_mem]
      rintro (hc | hc)
      · cases hc
      · exact h2 hc
    have hb : (option_ids.foldl hsInsert []).contains x = false := by simpa using hm
    rw [hb]
    rfl

/-- Membership in `toAdd` is: requested but not currently approved. -/
theorem toAdd_mem (s : AState) (sender vote_id : Nat) (option_ids : List Nat)
    (x : Nat) : x ∈ toAdd s sender vote_id option_ids ↔
      x ∈ option_ids ∧ x ∉ currentOf s sender vote_id := by
  unfold toAdd
  rw [List.mem_filter]
  constructor
  · rintro ⟨h1, h2⟩
    have hm : x ∈ option_ids := by
      have := (hsInsert_fold_mem option_ids [] x).mp h1
      rcases this with hc | hc
      · cases hc
      · exact hc
    refine ⟨hm, fun hc => ?_⟩
    have hb : (currentOf s sender vote_id).contains x = true := by simpa using hc
    rw [hb] at h2
    cases h2
  · rintro ⟨h1, h2⟩
    refine ⟨?_, ?_⟩
    · rw [hsInsert_fold_mem]
      exact Or.inr h1
    · have hb : (currentOf s sender vote_id).contains x = false := by simpa using h2
      rw [hb]
      rfl

/-- A voter with no current approval of an option holds no ballot row for
it. -/
theorem approval_rows_nil_of_not_current (s : AState) (sender vote_id z : Nat)
    (hz : z ∉ currentOf s sender vote_id) :
    approval_rows s vote_id sender z = [] := by
  show s.approvals.filter
    (fun a => a.vote_id == vote_id && a.voter == sender && a.option_id == z) = []
  rw [List.filter_eq_nil_iff]
  intro r hr hcon
  simp only [Bool.and_eq_true, beq_iff_eq] at hcon
  exact hz ((currentOf_spec s sender vote_id z).mpr
    ⟨r, hr, hcon.1.1, hcon.1.2, hcon.2⟩)

/-- Claim C7: `set_approvals` applies the plain set differences between the
desired and the current approved-option sets — removing the caller's ballot
row and decrementing the counter for each current-but-not-desired option,
inserting one fresh row and incrementing the counter for each
desired-but-not-current option, and leaving options in both sets with their
row and counter untouched. -/
theorem claim_C7 (s : AState) (sender ts vote_id : Nat) (option_ids : List Nat)
    (vote : Vote)
    (hvote : find_vote_by_id s vote_id = some vote)
    (hsys : vote.voting_system = VotingSystem.Approval)
    (hvalid : ∀ oid ∈ option_ids, (find_vote_option_by_id s oid).any
      (fun o => o.vote_id == vote_id) = true)
    (hceil : (option_ids.foldl hsInsert []).length ≤ 20)
    (hndopt : (s.options.map (fun o => o.id)).Nodup)
    (hrows : ∀ x ∈ currentOf s sender vote_id,
      (approval_rows s vote_id sender x).length ≤ 1)
    (hcache : ∀ o ∈ s.options, o.approvals_count =
      (s.approvals.filter (fun a => a.option_id == o.id)).length)
    (hsmall : s.approvals.length < U32MAX) :
    (set_approvals s sender ts vote_id option_ids).1 = Except.ok () ∧
    ∀ o ∈ s.options,
      (set_approvals s sender ts vote_id option_ids).2.options.find?
          (fun o2 => o2.id == o.id) =
        some { o with approvals_count :=
          if o.id ∈ option_ids then
            (if o.id ∈ currentOf s sender vote_id then o.approvals_count
             else o.approvals_count + 1)
          else
            (if o.id ∈ currentOf s sender vote_id then o.approvals_count - 1
             else o.approvals_count) } ∧
      approval_rows (set_approvals s sender ts vote_id option_ids).2
          vote_id sender o.id =
        (if o.id ∈ option_ids then
          (if o.id ∈ currentOf s sender vote_id then
            approval_rows s vote_id sender o.id
           else [⟨vote_id, o.id, sender, ts⟩])
         else []) := by
  have hred : set_approvals s sender ts vote_id option_ids =
      (Except.ok (),
        (toAdd s sender vote_id option_ids).foldl
          (fun st oid => addOne st sender ts vote_id oid)
          ((toRemove s sender vote_id option_ids).foldl
            (fun st oid => removeOne st sender vote_id oid) s)) := by
    simp only [set_approvals, hvote]
    rw [if_neg (show ¬(vote.voting_system ≠ VotingSystem.Approval) from
      fun hne => hne hsys)]
    simp only [buildDesired_ok s vote_id option_ids [] hvalid]
    rw [if_neg (Nat.not_lt.mpr hceil)]
    rfl
  have hDnd : (option_ids.foldl hsInsert []).Nodup :=
    hsInsert_fold_nodup option_ids [] List.nodup_nil
  have hCnd : (currentOf s sender vote_id).Nodup := currentOf_nodup s sender vote_id
  have hRnd : (toRemove s sender vote_id option_ids).Nodup := hCnd.filter _
  have hAnd : (toAdd s sender vote_id option_ids).Nodup := hDnd.filter _
  have hrowsR : ∀ x ∈ toRemove s sender vote_id option_ids,
      (approval_rows s vote_id sender x).length = 1 := by
    intro x hx
    have hxC := ((toRemove_mem s sender vote_id option_ids x).mp hx).1
    have h1 := hrows x hxC
    rcases (currentOf_spec s sender vote_id x).mp hxC with ⟨a, ha, hv, hu, ho⟩
    have hmem : a ∈ approval_rows s vote_id sender x := by
      show a ∈ s.approvals.filter
        (fun r => r.vote_id == vote_id && r.voter == sender && r.option_id == x)
      rw [List.mem_filter]
      exact ⟨ha, by simp [hv, hu, ho]⟩
    have h2 : (approval_rows s vote_id sender x) ≠ [] := by
      intro hnil
      rw [hnil] at hmem
      cases hmem
    have h3 : 0 < (approval_rows s vote_id sender x).length :=
      List.length_pos.mpr h2
    omega
  obtain ⟨hremv, hrema, hremo⟩ := removeFold_spec sender vote_id
    (toRemove s sender vote_id option_ids) s hRnd hrowsR hndopt hcache
  have hgdec : ∀ o : VoteOption,
      ((fun o => if o.id ∈ toRemove s sender vote_id option_ids then
        { o with approvals_count := o.approvals_count - 1 } else o) o).id = o.id := by
    intro o
    show (if o.id ∈ toRemove s sender vote_id option_ids then
      { o with approvals_count := o.approvals_count - 1 } else o).id = o.id
    by_cases h : o.id ∈ toRemove s sender vote_id option_ids
    · rw [if_pos h]
    · rw [if_neg h]
  have hginc : ∀ o : VoteOption,
      ((fun o => if o.id ∈ toAdd s sender vote_id option_ids then
        { o with approvals_count := o.approvals_count + 1 } else o) o).id = o.id := by
    intro o
    show (if o.id ∈ toAdd s sender vote_id option_ids then
      { o with approvals_count := o.approvals_count + 1 } else o).id = o.id
    by_cases h : o.id ∈ toAdd s sender vote_id option_ids
    · rw [if_pos h]
    · rw [if_neg h]
  have hndoptT : (((toRemove s sender vote_id option_ids).foldl
      (fun st oid => removeOne st sender vote_id oid) s).options.map
        (fun o => o.id)).Nodup := by
    rw [hremo, map_options_ids _ _ hgdec]
    exact hndopt
  have hboundT : ∀ o2 ∈ ((toRemove s sender vote_id option_ids).foldl
      (fun st oid => removeOne st sender vote_id oid) s).options,
      o2.id ∈ toAdd s sender vote_id option_ids → o2.approvals_count < U32MAX := by
    intro o2 ho2 _
    rw [hremo] at ho2
    rcases List.mem_map.mp ho2 with ⟨o3, ho3, rfl⟩
    have hc := hcache o3 ho3
    have hlen : (s.approvals.filter (fun a => a.option_id == o3.id)).length ≤
        s.approvals.length := List.length_filter_le _ _
    show (if o3.id ∈ toRemove s sender vote_id option_ids then
      { o3 with approvals_count := o3.approvals_count - 1 } else o3).approvals_count
      < U32MAX
    by_cases h : o3.id ∈ toRemove s sender vote_id option_ids
    · rw [if_pos h]
      show o3.approvals_count - 1 < U32MAX
      omega
    · rw [if_neg h]
      omega
  obtain ⟨haddv, hadda, haddo⟩ := addFold_spec sender ts vote_id
    (toAdd s sender vote_id option_ids)
    ((toRemove s sender vote_id option_ids).foldl
      (fun st oid => removeOne st sender vote_id oid) s) hAnd hndoptT hboundT
  rw [hred]
  refine ⟨rfl, ?_⟩
  intro o ho
  have hRo : o.id ∈ toRemove s sender vote_id option_ids ↔
      o.id ∈ currentOf s sender vote_id ∧ o.id ∉ option_ids :=
    toRemove_mem s sender vote_id option_ids o.id
  have hAo : o.id ∈ toAdd s sender vote_id option_ids ↔
      o.id ∈ option_ids ∧ o.id ∉ currentOf s sender vote_id :=
    toAdd_mem s sender vote_id option_ids o.id
  constructor
  · rw [haddo, hremo, find?_map_preserve _ _ hginc, find?_map_preserve _ _ hgdec,
      find?_self_of_nodup s.options hndopt o ho]
    simp only [Option.map_some']
    by_cases hin : o.id ∈ option_ids <;> by_cases hinC : o.id ∈ currentOf s sender vote_id
    · have hnR : o.id ∉ toRemove s sender vote_id option_ids :=
        fun hc => (hRo.mp hc).2 hin
      have hnA : o.id ∉ toAdd s sender vote_id option_ids :=
        fun hc => (hAo.mp hc).2 hinC
      rw [if_neg hnR, if_neg hnA, if_pos hin, if_pos hinC]
    · have hnR : o.id ∉ toRemove s sender vote_id option_ids :=
        fun hc => (hRo.mp hc).2 hin
      have hA : o.id ∈ toAdd s sender vote_id option_ids := hAo.mpr ⟨hin, hinC⟩
      rw [if_neg hnR, if_pos hA, if_pos hin, if_neg hinC]
    · have hR : o.id ∈ toRemove s sender vote_id option_ids := hRo.mpr ⟨hinC, hin⟩
      have hnA : o.id ∉ toAdd s sender vote_id option_ids :=
        fun hc => (hAo.mp hc).2 hinC
      rw [if_pos hR]
      rw [if_neg (show ({ o with approvals_count := o.approvals_count - 1 } :
        VoteOption).id ∉ toAdd s sender vote_id option_ids from hnA)]
      rw [if_neg hin, if_pos hinC]
    · have hnR : o.id ∉ toRemove s sender vote_id option_ids :=
        fun hc => hinC (hRo.mp hc).1
      have hnA : o.id ∉ toAdd s sender vote_id option_ids :=
        fun hc => hin (hAo.mp hc).1
      rw [if_neg hnR, if_neg hnA, if_neg hin, if_neg hinC]
  · show (((toAdd s sender vote_id option_ids).foldl
        (fun st oid => addOne st sender ts vote_id oid)
        (((toRemove s sender vote_id option_ids)).foldl
          (fun st oid => removeOne st sender vote_id oid) s)).approvals.filter
      (fun r => r.vote_id == vote_id && r.voter == sender && r.option_id == o.id)) =
      (if o.id ∈ option_ids then
        (if o.id ∈ currentOf s sender vote_id then
          approval_rows s vote_id sender o.id
         else [⟨vote_id, o.id, sender, ts⟩])
       else [])
    rw [hadda, hrema, List.filter_append, List.filter_filter]
    have hfirst : ∀ hR : o.id ∉ toRemove s sender vote_id option_ids,
        s.approvals.filter (fun r =>
          (r.vote_id == vote_id && r.voter == sender && r.option_id == o.id) &&
          !(r.vote_id == vote_id && r.voter == sender &&
            (toRemove s sender vote_id option_ids).contains r.option_id)) =
        approval_rows s vote_id sender o.id := by
      intro hR
      show _ = s.approvals.filter
        (fun r => r.vote_id == vote_id && r.voter == sender && r.option_id == o.id)
      apply List.filter_congr
      intro r _
      cases hpo : (r.vote_id == vote_id && r.voter == sender && r.option_id == o.id)
      · simp
      · have hr := hpo
        simp only [Bool.and_eq_true, beq_iff_eq] at hr
        have hcont : (toRemove s sender vote_id option_ids).contains r.option_id
            = false := by
          rw [hr.2]
          simpa using hR
        simp only [hcont, Bool.and_false, Bool.not_false, Bool.and_true]
    have hfirstR : ∀ hR : o.id ∈ toRemove s sender vote_id option_ids,
        s.approvals.filter (fun r =>
          (r.vote_id == vote_id && r.voter == sender && r.option_id == o.id) &&
          !(r.vote_id == vote_id && r.voter == sender &&
            (toRemove s sender vote_id option_ids).contains r.option_id)) = [] := by
      intro hR
      rw [List.filter_eq_nil_iff]
      intro r _ hcon
      rw [Bool.and_eq_true] at hcon
      have hr := hcon.1
      simp only [Bool.and_eq_true, beq_iff_eq] at hr
      have hcont : (toRemove s sender vote_id option_ids).contains r.option_id
          = true := by
        rw [hr.2]
        simpa using hR
      rw [show (r.vote_id == vote_id && r.voter == sender &&
          (toRemove s sender vote_id option_ids).contains r.option_id) = true from by
        rw [hcont]
        simp [hr.1.1, hr.1.2]] at hcon
      cases hcon.2
    have hsecond : ((toAdd s sender vote_id option_ids).map
        (fun oid => (⟨vote_id, oid, sender, ts⟩ : Approval))).filter
        (fun r => r.vote_id == vote_id && r.voter == sender && r.option_id == o.id) =
        if o.id ∈ toAdd s sender vote_id option_ids then
          [(⟨vote_id, o.id, sender, ts⟩ : Approval)] else [] := by
      rw [List.filter_map]
      have hcg : ((toAdd s sender vote_id option_ids).filter
          ((fun r : Approval => r.vote_id == vote_id && r.voter == sender &&
            r.option_id == o.id) ∘ (fun oid => (⟨vote_id, oid, sender, ts⟩ : Approval))))
          = (toAdd s sender vote_id option_ids).filter (fun y => y == o.id) := by
        apply List.filter_congr
        intro y _
        show ((vote_id == vote_id) && (sender == sender) && (y == o.id)) = (y == o.id)
        simp
      rw [hcg, filter_beq_of_nodup _ hAnd o.id]
      by_cases hA : o.id ∈ toAdd s sender vote_id option_ids
      · rw [if_pos hA, if_pos hA]
        rfl
      · rw [if_neg hA, if_neg hA]
        rfl
    by_cases hin : o.id ∈ option_ids <;> by_cases hinC : o.id ∈ currentOf s sender vote_id
    · have hnR : o.id ∉ toRemove s sender vote_id option_ids :=
        fun hc => (hRo.mp hc).2 hin
      have hnA : o.id ∉ toAdd s sender vote_id option_ids :=
        fun hc => (hAo.mp hc).2 hinC
      rw [hfirst hnR, hsecond, if_neg hnA, List.append_nil, if_pos hin, if_pos hinC]
    · have hnR : o.id ∉ toRemove s sender vote_id option_ids :=
        fun hc => (hRo.mp hc).2 hin
      have hA : o.id ∈ toAdd s sender vote_id option_ids := hAo.mpr ⟨hin, hinC⟩
      rw [hfirst hnR, hsecond, if_pos hA,
        approval_rows_nil_of_not_current s sender vote_id o.id hinC,
        List.nil_append, if_pos hin, if_neg hinC]
    · have hR : o.id ∈ toRemove s sender vote_id option_ids := hRo.mpr ⟨hinC, hin⟩
      have hnA : o.id ∉ toAdd s sender vote_id option_ids :=
        fun hc => (hAo.mp hc).2 hinC
      rw [hfirstR hR, hsecond, if_neg hnA, List.append_nil, if_neg hin]
    · have hnR : o.id ∉ toRemove s sender vote_id option_ids :=
        fun hc => hinC (hRo.mp hc).1
      have hnA : o.id ∉ toAdd s sender vote_id option_ids :=
        fun hc => hin (hAo.mp hc).1
      rw [hfirst hnR, hsecond, if_neg hnA, List.append_nil,
        approval_rows_nil_of_not_current s sender vote_id o.id hinC, if_neg hin]

/-- Witness for claim C7: the spec's own example — desired set 2,3 against
current set 1,2 decrements option 1's counter, leaves option 2 alone, and
increments option 3's counter. -/
theorem claim_C7_witness :
    (set_approvals ⟨[⟨1, VotingSystem.Approval⟩],
        [⟨1, 1, 1⟩, ⟨2, 1, 1⟩, ⟨3, 1, 0⟩],
        [⟨1, 1, 7, 0⟩, ⟨1, 2, 7, 0⟩]⟩ 7 5 1 [2, 3]).1 = Except.ok () ∧
    (set_approvals ⟨[⟨1, VotingSystem.Approval⟩],
        [⟨1, 1, 1⟩, ⟨2, 1, 1⟩, ⟨3, 1, 0⟩],
        [⟨1, 1, 7, 0⟩, ⟨1, 2, 7, 0⟩]⟩ 7 5 1 [2, 3]).2.options.find?
      (fun o2 => o2.id == 1) = some ⟨1, 1, 0⟩ ∧
    (set_approvals ⟨[⟨1, VotingSystem.Approval⟩],
        [⟨1, 1, 1⟩, ⟨2, 1, 1⟩, ⟨3, 1, 0⟩],
        [⟨1, 1, 7, 0⟩, ⟨1, 2, 7, 0⟩]⟩ 7 5 1 [2, 3]).2.options.find?
      (fun o2 => o2.id == 2) = some ⟨2, 1, 1⟩ ∧
    (set_approvals ⟨[⟨1, VotingSystem.Approval⟩],
        [⟨1, 1, 1⟩, ⟨2, 1, 1⟩, ⟨3, 1, 0⟩],
        [⟨1, 1, 7, 0⟩, ⟨1, 2, 7, 0⟩]⟩ 7 5 1 [2, 3]).2.options.find?
      (fun o2 => o2.id == 3) = some ⟨3, 1, 1⟩ := by
  have h := claim_C7 ⟨[⟨1, VotingSystem.Approval⟩],
      [⟨1, 1, 1⟩, ⟨2, 1, 1⟩, ⟨3, 1, 0⟩],
      [⟨1, 1, 7, 0⟩, ⟨1, 2, 7, 0⟩]⟩ 7 5 1 [2, 3] ⟨1, VotingSystem.Approval⟩
    rfl rfl (by decide) (by decide) (by decide) (by decide) (by decide) (by decide)
  refine ⟨h.1, ?_, ?_, ?_⟩
  · have h1 := (h.2 ⟨1, 1, 1⟩ (by decide)).1
    rw [if_neg (by decide : ¬(VoteOption.mk 1 1 1).id ∈ [2, 3]),
      if_pos (by decide : (VoteOption.mk 1 1 1).id ∈ currentOf
        ⟨[⟨1, VotingSystem.Approval⟩], [⟨1, 1, 1⟩, ⟨2, 1, 1⟩, ⟨3, 1, 0⟩],
          [⟨1, 1, 7, 0⟩, ⟨1, 2, 7, 0⟩]⟩ 7 1)] at h1
    exact h1
  · have h1 := (h.2 ⟨2, 1, 1⟩ (by decide)).1
    rw [if_pos (by decide : (VoteOption.mk 2 1 1).id ∈ [2, 3]),
      if_pos (by decide : (VoteOption.mk 2 1 1).id ∈ currentOf
        ⟨[⟨1, VotingSystem.Approval⟩], [⟨1, 1, 1⟩, ⟨2, 1, 1⟩, ⟨3, 1, 0⟩],
          [⟨1, 1, 7, 0⟩, ⟨1, 2, 7, 0⟩]⟩ 7 1)] at h1
    exact h1
  · have h1 := (h.2 ⟨3, 1, 0⟩ (by decide)).1
    rw [if_pos (by decide : (VoteOption.mk 3 1 0).id ∈ [2, 3]),
      if_neg (by decide : ¬(VoteOption.mk 3 1 0).id ∈ currentOf
        ⟨[⟨1, VotingSystem.Approval⟩], [⟨1, 1, 1⟩, ⟨2, 1, 1⟩, ⟨3, 1, 0⟩],
          [⟨1, 1, 7, 0⟩, ⟨1, 2, 7, 0⟩]⟩ 7 1)] at h1
    exact h1

/-- Witness for claim C8: approving option 1 twice on a one-option approval
vote. -/
theorem claim_C8_witness :
    (approve ⟨[⟨1, VotingSystem.Approval⟩], [⟨1, 1, 0⟩], []⟩ 9 0 1 1).1 =
        Except.ok () ∧
      approve (approve ⟨[⟨1, VotingSystem.Approval⟩], [⟨1, 1, 0⟩], []⟩ 9 0 1 1).2
          9 5 1 1 =
        (Except.ok (),
          (approve ⟨[⟨1, VotingSystem.Approval⟩], [⟨1, 1, 0⟩], []⟩ 9 0 1 1).2) :=
  claim_C8 ⟨[⟨1, VotingSystem.Approval⟩], [⟨1, 1, 0⟩], []⟩ 9 0 5 1 1 ⟨1, 1, 0⟩
    ⟨1, VotingSystem.Approval⟩ rfl rfl rfl rfl

end ZVote.ApprovalSrv
